import Mathlib

/-!
Shallow embedding of the luna virtual machine dispatch core
(`src/VirtualMachine.cpp`).  The VM state (operand stack, scope-table
stack, call stack, instruction pointer, and the heaps of tables, closures
and functions) is represented functionally; each C++ instruction handler
becomes a Lean function from states to results.  Heap objects (tables,
closures, functions) are referenced by numeric ids, mirroring the
pointer identity of the C++ data pool.  Failed C++ assertions, null
dereferences and other undefined behaviour are modelled by the `crash`
result; `throw RuntimeError(msg)` is modelled by `err msg s` where `s`
is the VM state at the moment of the throw.
-/

set_option linter.unusedVariables false

namespace Luna

/-- Runtime type tags returned by `Value::Type()`.  In the C++ source both
`Function` objects and `Closure` objects report `TYPE_FUNCTION`. -/
inductive LType where
  | nil
  | boolean
  | number
  | string
  | table
  | function
  | nativeFunction
deriving DecidableEq, Repr

/-- A runtime value (a `Value*` in the C++ source).  Tables, closures,
functions and native functions are heap objects referenced by id, so
`DecidableEq` on this type is pointer identity for them, matching the
identity semantics of C++ `Value*` comparison.  `nullp` stands for a null
`Value*` stored in a stack slot (for example the null upvalue-table
pointer pushed by `GetTable` when the closure has no upvalue table);
calling `Type()` or `Name()` through it is undefined behaviour. -/
inductive Value where
  | nil
  | boolean (b : Bool)
  | num (n : Int)
  | str (s : String)
  | table (tid : Nat)
  | closure (cid : Nat)
  | funcVal (fid : Nat)
  | native (nid : Nat)
  | nullp
deriving DecidableEq, Repr

/-- `Value::Type()`.  Returns `none` for a null pointer (dereferencing it
is undefined behaviour). -/
def Value.typeOf : Value → Option LType
  | .nil => some .nil
  | .boolean _ => some .boolean
  | .num _ => some .number
  | .str _ => some .string
  | .table _ => some .table
  | .closure _ => some .function
  | .funcVal _ => some .function
  | .native _ => some .nativeFunction
  | .nullp => none

/-- Modelled from the spec: `Value::Name()` (the value classes live under
`types/`, not under `src/`) — the human-readable type name used in error
messages.  Returns `none` for a null pointer. -/
def Value.nameOf : Value → Option String
  | .nil => some "nil"
  | .boolean _ => some "bool"
  | .num _ => some "number"
  | .str _ => some "string"
  | .table _ => some "table"
  | .closure _ => some "function"
  | .funcVal _ => some "function"
  | .native _ => some "native function"
  | .nullp => none

/-- The opcodes handled by the dispatch switch in `VirtualMachine::Run`.
`other n` stands for any enum value that matches none of the seventeen
`case` labels of the switch (the `OpCode` enum itself is declared in
`Instruction.h`, outside `src/`; the switch has no `default` case). -/
inductive OpCode where
  | assign
  | cleanStack
  | getLocalTable
  | getTable
  | getTableValue
  | push
  | generateClosure
  | ret
  | generateArgTable
  | mergeCounter
  | resetCounter
  | duplicateCounter
  | call
  | addLocalTable
  | delLocalTable
  | addGlobalTable
  | delGlobalTable
  | other (n : Nat)
deriving DecidableEq, Repr

/-- Instruction parameter `param_a`: a discriminated union of
`{Name(Value*), Value(Value*), Counter(int), CounterIndex(int)}`.
The `name` and `value` alternatives both hold a `Value*` (the same union
member layout), which matters where a handler reads `param.value`
without checking the discriminator. -/
inductive InsParam where
  | name (v : Value)
  | value (v : Value)
  | counter (total : Nat)
  | counterIndex (ci : Nat)
  | noParam
deriving DecidableEq, Repr

/-- An instruction `{op_code, param_a}`. -/
structure Instruction where
  op_code : OpCode
  param_a : InsParam
deriving DecidableEq, Repr

/-- An operand-stack slot: either a value slot or a counter slot
`{current, total}`.  The C++ fields are `int`; every counter the handlers
construct is nonnegative, so they are modelled as `Nat`. -/
inductive StackValue where
  | value (v : Value)
  | counter (current total : Nat)
deriving DecidableEq, Repr

/-- A table: an association list from keys to values (`types/Table.h` is
outside `src/`; this follows the contracted operations of spec §3). -/
abbrev Tbl := List (Value × Value)

/-- A compiled function (`types/Function.h`, outside `src/`): its
instruction sequence and its ordered upvalue-name set. -/
structure FuncObj where
  instructions : List Instruction
  upvalues : List Value
deriving DecidableEq, Repr

/-- A closure: its function id and its upvalue table id (`none` models
the null upvalue-table pointer of a closure whose function declares no
upvalues). -/
structure ClosureObj where
  func : Nat
  upvalue : Option Nat
deriving DecidableEq, Repr

/-- A call-stack record (`CallStackInfo`): the caller's instruction base,
count and offset, the callee (`none` models the null callee of the
synthetic record pushed by `AddGlobalTable`), and `callee_tables`, the
number of scope tables the callee has pushed. -/
structure CallStackInfo where
  caller_base : List Instruction
  caller_total : Int
  caller_offset : Int
  callee : Option Value
  callee_tables : Nat
deriving DecidableEq, Repr

/-- The full VM state.  `stack`, `nest_tables` and `call_stack` are lists
with the most recently pushed element at the head (so C++ `back()` /
`rbegin()` is the head).  `tables`, `closures` and `funcs` are the heaps
indexed by id; `globalTable` is the id of `State::GetGlobalTable()`. -/
structure VMState where
  stack : List StackValue
  nest_tables : List Nat
  call_stack : List CallStackInfo
  ins_base : List Instruction
  ins_count : Int
  ins_current : Int
  tables : List Tbl
  closures : List ClosureObj
  funcs : List FuncObj
  globalTable : Nat
deriving DecidableEq, Repr

/-- Result of one handler: normal completion, a thrown `RuntimeError`
(carrying the state at the moment of the throw), or `crash` for a failed
`assert` / null dereference / other undefined behaviour. -/
inductive HResult where
  | ok (s : VMState)
  | err (msg : String) (s : VMState)
  | crash
deriving DecidableEq, Repr

/-- Modelled from the spec: `Stack::GetStackValue` (§4.1; `Stack` is not
under `src/`).  A negative index counts from the top (−1 = top); a
nonnegative index is an absolute position from the bottom.  The stack is
represented head-at-top, so absolute position `p` is list position
`size − 1 − p`. -/
def getStackValue (st : List StackValue) (i : Int) : Option StackValue :=
  if i < 0 then st[(-i).toNat - 1]?
  else if i.toNat < st.length then st[st.length - 1 - i.toNat]? else none

/-- Modelled from the spec: writing through the `StackValue*` returned by
`Stack::GetStackValue` (in-place slot mutation, as `GetTableValue` and
`MergeCounter` do). -/
def setStackValue (st : List StackValue) (i : Int) (v : StackValue) : List StackValue :=
  if i < 0 then st.set ((-i).toNat - 1) v
  else st.set (st.length - 1 - i.toNat) v

/-- Modelled from the spec: `Table::HaveKey` (§3; `types/Table.h` is not
under `src/`). -/
def tblHaveKey (t : Tbl) (k : Value) : Bool :=
  t.any (fun p => p.1 = k)

/-- Modelled from the spec: `Table::GetValue` / `Table::GetTableValue`
(§3) — the value bound to the key, or nil when absent. -/
def tblGetValue (t : Tbl) (k : Value) : Value :=
  match t.find? (fun p => p.1 = k) with
  | some p => p.2
  | none => Value.nil

/-- Replace the binding of `k` if present, else append it. -/
def tblAssignL (t : Tbl) (k v : Value) : Tbl :=
  match t with
  | [] => [(k, v)]
  | (k1, v1) :: rest =>
      if k1 = k then (k1, v) :: rest else (k1, v1) :: tblAssignL rest k v

/-- Modelled from the spec: `Table::Assign` (§3) — nil keys are forbidden
and raise a runtime error; otherwise the binding is replaced or
inserted.  `none` signals the nil-key error. -/
def tblAssignChk (t : Tbl) (k v : Value) : Option Tbl :=
  if k = Value.nil then none else some (tblAssignL t k v)

/-- Modelled from the spec: the message of the runtime error raised by
`Table::Assign` on a nil key (`Table.cpp` is not under `src/`, so the
exact text is not observable; only its being a runtime error matters). -/
def tableNilKeyMsg : String := "table key is nil"

/-- `VirtualMachine::Assign`.  Reads the key from the top slot (asserted
to be a value slot), pops two slots (key and the counter beneath it),
reads the target table from the new top (asserted value slot), pops it,
then consumes one value from the RHS counter now on top: if
`current < total` the value at relative index `current − total − 1` is
taken and `current` is incremented, otherwise nil is used and the counter
is untouched.  Finally `table->Assign(key, value)` runs (undefined cast
if the table slot does not hold a table; runtime error on a nil key). -/
def vmAssign (s : VMState) : HResult :=
  match s.stack with
  | .value key :: x :: .value tv :: .counter cur tot :: rest =>
      let afterPops : List StackValue := .counter cur tot :: rest
      let consumed : Option (Value × List StackValue) :=
        if cur < tot then
          match getStackValue afterPops ((cur : Int) - (tot : Int) - 1) with
          | some (.value v) => some (v, .counter (cur + 1) tot :: rest)
          | _ => none
        else
          some (Value.nil, afterPops)
      match consumed with
      | none => .crash
      | some (v, stack1) =>
          match tv with
          | .table tid =>
              match s.tables[tid]? with
              | none => .crash
              | some t =>
                  match tblAssignChk t key v with
                  | none => .err tableNilKeyMsg {s with stack := stack1}
                  | some t1 =>
                      .ok {s with stack := stack1, tables := s.tables.set tid t1}
          | _ => .crash
  | _ => .crash

/-- `VirtualMachine::CleanStack`: asserts the top slot is a counter, pops
it, then pops `total` further slots (none when `total` is 0). -/
def vmCleanStack (s : VMState) : HResult :=
  match s.stack with
  | .counter _ tot :: rest =>
      if tot ≤ rest.length then .ok {s with stack := rest.drop tot}
      else .crash
  | _ => .crash

/-- `VirtualMachine::GetLocalTable`: pushes `nest_tables_.back()` and a
counter `{current = 0, total = 1}` (`back()` on an empty vector is
undefined behaviour). -/
def vmGetLocalTable (s : VMState) : HResult :=
  match s.nest_tables with
  | tid :: _ =>
      .ok {s with stack := .counter 0 1 :: .value (.table tid) :: s.stack}
  | [] => .crash

/-- The scope scan of `VirtualMachine::GetTable`: the loop
`for (it = rbegin(); callee_tables > 0; ++it, --callee_tables)` iterates
exactly `callee_tables` times and never checks `rend()`, so running past
the end of `nest_tables` is undefined behaviour (`none`).  `some none`
means the scan completed without a match; `some (some tid)` is the first
table holding the key. -/
def getTableScan (heap : List Tbl) (nest : List Nat) (key : Value) (ct : Nat) :
    Option (Option Nat) :=
  match ct, nest with
  | 0, _ => some none
  | _ + 1, [] => none
  | c + 1, tid :: rest =>
      match heap[tid]? with
      | none => none
      | some t =>
          if tblHaveKey t key then some (some tid) else getTableScan heap rest key c

/-- `VirtualMachine::GetTable`: resolves the name parameter by scanning
the current frame's `callee_tables` scope tables from innermost outward;
pushes the first table holding the key plus a counter `{0,1}`.  When the
scan misses, reads `call_stack_.back().callee`, asserts its type is
`TYPE_FUNCTION` (a null callee is dereferenced here — undefined
behaviour), casts it to `Closure` and pushes its upvalue-table pointer
(null when the closure has no upvalues) plus a counter `{0,1}`. -/
def vmGetTable (s : VMState) (ins : Instruction) : HResult :=
  match ins.param_a with
  | .name key =>
      match s.call_stack with
      | [] => .crash
      | info :: _ =>
          match getTableScan s.tables s.nest_tables key info.callee_tables with
          | none => .crash
          | some (some tid) =>
              .ok {s with stack := .counter 0 1 :: .value (.table tid) :: s.stack}
          | some none =>
              match info.callee with
              | none => .crash
              | some v =>
                  match v with
                  | .closure cid =>
                      match s.closures[cid]? with
                      | none => .crash
                      | some cl =>
                          let uv : Value :=
                            match cl.upvalue with
                            | some uid => .table uid
                            | none => .nullp
                          .ok {s with stack := .counter 0 1 :: .value uv :: s.stack}
                  | _ => .crash
  | _ => .crash

/-- The counter-skipping loop of `VirtualMachine::GetTableValue`: starting
from index −1, `counter_index` times decrement the index, assert the slot
there is a counter and jump below its `total` values. -/
def skipCounters (st : List StackValue) (index : Int) (ci : Nat) : Option Int :=
  match ci with
  | 0 => some index
  | c + 1 =>
      match getStackValue st (index - 1) with
      | some (.counter _ tot) => skipCounters st (index - 1 - (tot : Int)) c
      | _ => none

/-- `VirtualMachine::GetTableValue`: after skipping `counter_index`
counters from the top, asserts a counter at `index − 1`; the slot at
`index − 2` holds the target.  If the target's type is not `TYPE_TABLE`
it throws "attempt to index value from <type>".  Otherwise it looks the
top-of-stack key up in the table, overwrites the target slot in place
with the result, and pops the key. -/
def vmGetTableValue (s : VMState) (ins : Instruction) : HResult :=
  match ins.param_a with
  | .counterIndex ci =>
      match skipCounters s.stack (-1) ci with
      | none => .crash
      | some index =>
          match getStackValue s.stack (index - 1) with
          | some (.counter _ _) =>
              match getStackValue s.stack (index - 2) with
              | some (.value tv) =>
                  match tv with
                  | .nullp => .crash
                  | .table tid =>
                      match s.stack with
                      | .value key :: _ =>
                          match s.tables[tid]? with
                          | none => .crash
                          | some t =>
                              let v := tblGetValue t key
                              .ok {s with
                                    stack := (setStackValue s.stack (index - 2)
                                                (.value v)).drop 1}
                      | _ => .crash
                  | _ =>
                      match tv.nameOf with
                      | some nm => .err ("attempt to index value from " ++ nm) s
                      | none => .crash
              | _ => .crash
          | _ => .crash
  | _ => .crash

/-- `VirtualMachine::DoPush`: pushes the name, the value, or a counter
`{0, total}` depending on the parameter kind; any other parameter kind
matches no branch and nothing is pushed. -/
def vmDoPush (s : VMState) (ins : Instruction) : HResult :=
  match ins.param_a with
  | .name v => .ok {s with stack := .value v :: s.stack}
  | .value v => .ok {s with stack := .value v :: s.stack}
  | .counter tot => .ok {s with stack := .counter 0 tot :: s.stack}
  | _ => .ok s

/-- The first search loop of `VirtualMachine::GetUpvalueKeyOwnerTable`:
`for (it = rbegin(); callee_tables > 0 && it != rend(); ++it)` — the
condition tests `callee_tables` but the loop never decrements it, so
whenever it is positive the loop scans ALL scope tables, innermost
outward, up to `rend()`.  `none` models an invalid table id (undefined
behaviour); `some none` means no table holds the key. -/
def ownerScan (heap : List Tbl) (nest : List Nat) (key : Value) :
    Option (Option Nat) :=
  match nest with
  | [] => some none
  | tid :: rest =>
      match heap[tid]? with
      | none => none
      | some t =>
          if tblHaveKey t key then some (some tid) else ownerScan heap rest key

/-- Result of `GetUpvalueKeyOwnerTable`: the owner table id (with the
possibly updated state — the global fallback inserts the key as nil), a
thrown runtime error, or a crash (failed assert / undefined behaviour). -/
inductive OwnerRes where
  | ok (tid : Nat) (s : VMState)
  | err (msg : String) (s : VMState)
  | crash
deriving DecidableEq, Repr

/-- `VirtualMachine::GetUpvalueKeyOwnerTable`: first the scope scan (see
`ownerScan`; the loop tests but never decrements `callee_tables`); if no
scanned table holds the key, a non-null callee is cast to `Closure` and
its upvalue table returned under `assert(t && t->HaveKey(key))`; with a
null callee it asserts `callee_tables == 1`, inserts the key as nil into
`nest_tables_.back()` and returns that table. -/
def getUpvalueKeyOwnerTable (s : VMState) (key : Value) : OwnerRes :=
  match s.call_stack with
  | [] => .crash
  | info :: _ =>
      match (if 0 < info.callee_tables
             then ownerScan s.tables s.nest_tables key
             else some none) with
      | none => .crash
      | some (some tid) => .ok tid s
      | some none =>
          match info.callee with
          | some v =>
              match v with
              | .closure cid =>
                  match s.closures[cid]? with
                  | none => .crash
                  | some cl =>
                      match cl.upvalue with
                      | none => .crash
                      | some uid =>
                          match s.tables[uid]? with
                          | none => .crash
                          | some t =>
                              if tblHaveKey t key then .ok uid s else .crash
              | _ => .crash
          | none =>
              if info.callee_tables = 1 then
                match s.nest_tables with
                | [] => .crash
                | tid :: _ =>
                    match s.tables[tid]? with
                    | none => .crash
                    | some t =>
                        match tblAssignChk t key Value.nil with
                        | none => .err tableNilKeyMsg s
                        | some t1 => .ok tid {s with tables := s.tables.set tid t1}
              else .crash

/-- The upvalue-seeding loop of `VirtualMachine::GenerateClosure`: for
each declared upvalue name, resolve its owner table and copy the owner's
current value for that name into the closure's upvalue table. -/
def seedUpvalues (uid : Nat) (names : List Value) (s : VMState) : HResult :=
  match names with
  | [] => .ok s
  | n :: rest =>
      match getUpvalueKeyOwnerTable s n with
      | .crash => .crash
      | .err m s1 => .err m s1
      | .ok tid s1 =>
          match s1.tables[tid]? with
          | none => .crash
          | some t =>
              let v := tblGetValue t n
              match s1.tables[uid]? with
              | none => .crash
              | some ut =>
                  match tblAssignChk ut n v with
                  | none => .err tableNilKeyMsg s1
                  | some ut1 =>
                      seedUpvalues uid rest {s1 with tables := s1.tables.set uid ut1}

/-- `VirtualMachine::GenerateClosure`: reads the `Value*` parameter (the
asserted `TYPE_FUNCTION` object must actually be a `Function`, not a
`Closure`, or the `static_cast` is undefined), allocates a new closure
via `DataPool::GetClosure` — which allocates a fresh upvalue table iff
the function declares upvalues (modelled from the spec, §4.4) — pushes
the closure and a counter `{0,1}`, then seeds the upvalue table. -/
def vmGenerateClosure (s : VMState) (ins : Instruction) : HResult :=
  match ins.param_a with
  | .name fv | .value fv =>
      match fv with
      | .funcVal fid =>
          match s.funcs[fid]? with
          | none => .crash
          | some fn =>
              if fn.upvalues.isEmpty then
                .ok {s with
                  closures := s.closures ++ [⟨fid, none⟩],
                  stack := .counter 0 1 ::
                    .value (.closure s.closures.length) :: s.stack}
              else
                seedUpvalues s.tables.length fn.upvalues {s with
                  tables := s.tables ++ [[]],
                  closures := s.closures ++ [⟨fid, some s.tables.length⟩],
                  stack := .counter 0 1 ::
                    .value (.closure s.closures.length) :: s.stack}
      | _ => .crash
  | _ => .crash

/-- `VirtualMachine::Return`: restores the caller's instruction base,
count and offset from `call_stack_.back()`, shrinks `nest_tables_` by
`callee_tables` entries, and pops the call record.  When `callee_tables`
exceeds the scope-stack size the `size_t` subtraction wraps and
`resize` is asked for a near-2^64 size, which throws `length_error` —
treated as abnormal (`crash`); it is unreachable in well-formed
executions. -/
def vmReturn (s : VMState) : HResult :=
  match s.call_stack with
  | [] => .crash
  | info :: rest =>
      if info.callee_tables ≤ s.nest_tables.length then
        .ok {s with ins_base := info.caller_base,
                    ins_count := info.caller_total,
                    ins_current := info.caller_offset,
                    nest_tables := s.nest_tables.drop info.callee_tables,
                    call_stack := rest}
      else .crash

/-- The collection loop of `VirtualMachine::GenerateArgTable`: the
unconsumed run values are read at relative indices
`−1 − (total − current)` upward, i.e. at head positions `n, n−1, …, 1`
where `n = total − current`; each must be a value slot. -/
def collectRun (st : List StackValue) (n : Nat) : Option (List Value) :=
  match n with
  | 0 => some []
  | m + 1 =>
      match st[m + 1]? with
      | some (.value v) =>
          match collectRun st m with
          | some vs => some (v :: vs)
          | none => none
      | _ => none

/-- `VirtualMachine::GenerateArgTable`: allocates a fresh table, assigns
`arg[i] = v_i` (1-based number keys) for each unconsumed value of the top
counter, marks the counter fully consumed (`current := total`), and binds
the name `"arg"` in the innermost scope table to the new table.  The
fresh table with its distinct number keys is built directly as the
association list the successive `Table::Assign`s produce. -/
def vmGenerateArgTable (s : VMState) : HResult :=
  match s.stack with
  | .counter cur tot :: tail =>
      match collectRun s.stack (tot - cur) with
      | none => .crash
      | some args =>
          let tid := s.tables.length
          let argTbl : Tbl :=
            (List.range args.length).zip args |>.map
              (fun p => (Value.num ((p.1 : Int) + 1), p.2))
          match s.nest_tables with
          | [] => .crash
          | lt :: _ =>
              match s.tables[lt]? with
              | none => .crash
              | some ltbl =>
                  match tblAssignChk ltbl (.str "arg") (.table tid) with
                  | none => .err tableNilKeyMsg s
                  | some ltbl1 =>
                      .ok {s with stack := .counter tot tot :: tail,
                                  tables := (s.tables ++ [argTbl]).set lt ltbl1}
  | _ => .crash

/-- `VirtualMachine::MergeCounter`: with the top counter describing a run
of `total₁` slots sitting immediately above a second counter of
`total₂`, the loop shifts the upper run one slot down (overwriting the
second counter slot), pops two slots, and pushes a fresh counter
`{0, total₁ + total₂}`; net effect: the two runs become contiguous under
one counter. -/
def vmMergeCounter (s : VMState) : HResult :=
  match s.stack with
  | .counter _ c1 :: rest =>
      if h : c1 ≤ rest.length then
        match rest.drop c1 with
        | .counter _ c2 :: rest2 =>
            .ok {s with stack := .counter 0 (c1 + c2) :: (rest.take c1 ++ rest2)}
        | _ => .crash
      else .crash
  | _ => .crash

/-- `VirtualMachine::ResetCounter`: if the top counter's `total` is 1 the
handler returns at once (the counter — including its `current` field — is
left untouched); with `total = 0` it pops the counter, pushes a nil value
and a counter `{0,1}`; with `total > 1` it pops the counter and
`total − 1` surplus values and pushes a counter `{0,1}`. -/
def vmResetCounter (s : VMState) : HResult :=
  match s.stack with
  | .counter cur tot :: rest =>
      if tot = 1 then .ok s
      else if tot = 0 then
        .ok {s with stack := .counter 0 1 :: .value .nil :: rest}
      else if tot - 1 ≤ rest.length then
        .ok {s with stack := .counter 0 1 :: rest.drop (tot - 1)}
      else .crash
  | _ => .crash

/-- `VirtualMachine::DuplicateCounter`: copies the `total` slots beneath
the top counter (read at absolute positions `size − total − 1` upward)
onto the top of the stack in order, then pushes a fresh counter
`{0, total}`.  A run larger than the stack beneath the counter would make
the absolute start index negative — treated as abnormal. -/
def vmDuplicateCounter (s : VMState) : HResult :=
  match s.stack with
  | .counter _ tot :: rest =>
      if tot ≤ rest.length then
        .ok {s with stack := .counter 0 tot :: (rest.take tot ++ s.stack)}
      else .crash
  | _ => .crash

/-- The built-in single-`Ret` bootstrap `native_func_ret_` installed after
a native call. -/
def nativeRetBoot : List Instruction := [⟨.ret, .noParam⟩]

/-- `VirtualMachine::Call`.  The top slot is the argument counter
`{_, A}`; at relative index `−2 − A` sits the callee counter (asserted to
be a counter with `total = 1`); at `−3 − A` the callee value.  A new call
record snapshotting `ins_base_`, `ins_count_`, `ins_current_` and the
callee (with `callee_tables = 0`) is pushed FIRST.  Then, by callee type:
a script closure redirects `ins_base_/ins_count_` to its instructions
with `ins_current_ = −1`; a native function is invoked synchronously
(`nfx` is its contracted stack effect, modelled from the spec §6) and the
single-`Ret` bootstrap is installed; any other type throws
"attempt to call <type>" — with the new record still on the call stack. -/
def vmCall (nfx : Nat → List StackValue → List StackValue) (s : VMState) : HResult :=
  match s.stack with
  | .counter _ atot :: _ =>
      match getStackValue s.stack (-2 - (atot : Int)) with
      | some (.counter _ ctot) =>
          if ctot = 1 then
            match getStackValue s.stack (-3 - (atot : Int)) with
            | some (.value callee) =>
                let info : CallStackInfo :=
                  ⟨s.ins_base, s.ins_count, s.ins_current, some callee, 0⟩
                let s1 : VMState := {s with call_stack := info :: s.call_stack}
                match callee with
                | .nullp => .crash
                | .closure cid =>
                    match s1.closures[cid]? with
                    | none => .crash
                    | some cl =>
                        match s1.funcs[cl.func]? with
                        | none => .crash
                        | some fn =>
                            .ok {s1 with ins_base := fn.instructions,
                                         ins_count := (fn.instructions.length : Int),
                                         ins_current := -1}
                | .funcVal _ => .crash
                | .native nid =>
                    .ok {s1 with stack := nfx nid s1.stack,
                                 ins_base := nativeRetBoot,
                                 ins_count := (nativeRetBoot.length : Int),
                                 ins_current := -1}
                | v =>
                    match v.nameOf with
                    | some nm => .err ("attempt to call " ++ nm) s1
                    | none => .crash
            | _ => .crash
          else .crash
      | _ => .crash
  | _ => .crash

/-- `VirtualMachine::AddLocalTable`: allocates a fresh table, pushes it
onto the scope stack, and increments `callee_tables` of the current call
record (`back()` on an empty call stack is undefined behaviour). -/
def vmAddLocalTable (s : VMState) : HResult :=
  match s.call_stack with
  | [] => .crash
  | info :: rest =>
      .ok {s with tables := s.tables ++ [[]],
                  nest_tables := s.tables.length :: s.nest_tables,
                  call_stack :=
                    {info with callee_tables := info.callee_tables + 1} :: rest}

/-- `VirtualMachine::DelLocalTable`: pops one scope table and decrements
`callee_tables` of the current call record.  Decrementing a `size_t` that
is already 0 wraps to 2^64 − 1; that state is unreachable in well-formed
executions (every `DelLocalTable` matches an `AddLocalTable`) and is
treated as abnormal here, as is `pop_back` on an empty vector. -/
def vmDelLocalTable (s : VMState) : HResult :=
  match s.call_stack, s.nest_tables with
  | info :: rest, _ :: nt =>
      if 0 < info.callee_tables then
        .ok {s with nest_tables := nt,
                    call_stack :=
                      {info with callee_tables := info.callee_tables - 1} :: rest}
      else .crash
  | _, _ => .crash

/-- `VirtualMachine::AddGlobalTable`: pushes the global table onto the
scope stack and a synthetic call record `CallStackInfo(0, 0, 0, 0)`
(null caller base, null callee) whose `callee_tables` is then set to 1. -/
def vmAddGlobalTable (s : VMState) : HResult :=
  .ok {s with nest_tables := s.globalTable :: s.nest_tables,
              call_stack := ⟨[], 0, 0, none, 1⟩ :: s.call_stack}

/-- `VirtualMachine::DelGlobalTable`: pops one scope table and one call
record. -/
def vmDelGlobalTable (s : VMState) : HResult :=
  match s.nest_tables, s.call_stack with
  | _ :: nt, _ :: cs => .ok {s with nest_tables := nt, call_stack := cs}
  | _, _ => .crash

/-- The dispatch switch of `VirtualMachine::Run`: one handler per opcode;
an opcode matching none of the seventeen `case` labels executes no
handler (the switch has no `default`). -/
def execIns (nfx : Nat → List StackValue → List StackValue)
    (s : VMState) (ins : Instruction) : HResult :=
  match ins.op_code with
  | .assign => vmAssign s
  | .cleanStack => vmCleanStack s
  | .getLocalTable => vmGetLocalTable s
  | .getTable => vmGetTable s ins
  | .getTableValue => vmGetTableValue s ins
  | .push => vmDoPush s ins
  | .generateClosure => vmGenerateClosure s ins
  | .ret => vmReturn s
  | .generateArgTable => vmGenerateArgTable s
  | .mergeCounter => vmMergeCounter s
  | .resetCounter => vmResetCounter s
  | .duplicateCounter => vmDuplicateCounter s
  | .call => vmCall nfx s
  | .addLocalTable => vmAddLocalTable s
  | .delLocalTable => vmDelLocalTable s
  | .addGlobalTable => vmAddGlobalTable s
  | .delGlobalTable => vmDelGlobalTable s
  | .other _ => .ok s

/-- One iteration of the `while (ins_current_ < ins_count_)` dispatch
loop: fetch `ins_base_[ins_current_]`, run the switch, then
`++ins_current_`.  When the loop guard fails the state is returned
unchanged; a fetch outside the instruction array is undefined
behaviour. -/
def runStep (nfx : Nat → List StackValue → List StackValue)
    (s : VMState) : HResult :=
  if s.ins_current < s.ins_count then
    if 0 ≤ s.ins_current then
      match s.ins_base[s.ins_current.toNat]? with
      | none => .crash
      | some ins =>
          match execIns nfx s ins with
          | .ok s1 => .ok {s1 with ins_current := s1.ins_current + 1}
          | r => r
    else .crash
  else .ok s

/-- Execution of a dynamic sequence of handler invocations (the
instructions dispatched during a stretch of the `Run` loop), stopping at
the first error or crash. -/
def execSeq (nfx : Nat → List StackValue → List StackValue)
    (l : List Instruction) (s : VMState) : HResult :=
  match l with
  | [] => .ok s
  | i :: rest =>
      match execIns nfx s i with
      | .ok s1 => execSeq nfx rest s1
      | r => r

/-! ## Helper lemmas -/

lemma getStackValue_negNat (st : List StackValue) (m : Nat) (hm : 0 < m) :
    getStackValue st (-(m : Int)) = st[m - 1]? := by
  unfold getStackValue
  rw [if_pos (by exact_mod_cast Int.neg_neg_of_pos (by exact_mod_cast hm))]
  simp

/-- Lookup restricted to present keys (unlike `tblGetValue`, absence is
observable). -/
def tblFind (t : Tbl) (k : Value) : Option Value :=
  (t.find? (fun p => p.1 = k)).map (fun p => p.2)

lemma tblFind_assign_self (t : Tbl) (k v : Value) :
    tblFind (tblAssignL t k v) k = some v := by
  induction t with
  | nil => simp [tblAssignL, tblFind, List.find?]
  | cons p rest ih =>
      obtain ⟨k1, v1⟩ := p
      by_cases hk : k1 = k
      · subst hk
        simp [tblAssignL, tblFind, List.find?]
      · simp only [tblAssignL, if_neg hk]
        simpa [tblFind, List.find?_cons, hk] using ih

lemma tblFind_assign_ne (t : Tbl) (k v k1 : Value) (h : k1 ≠ k) :
    tblFind (tblAssignL t k v) k1 = tblFind t k1 := by
  induction t with
  | nil => simp [tblAssignL, tblFind, List.find?, Ne.symm h]
  | cons p rest ih =>
      obtain ⟨k2, v2⟩ := p
      by_cases hk : k2 = k
      · simp [tblAssignL, if_pos hk, tblFind, List.find?_cons, hk, Ne.symm h]
      · simp only [tblAssignL, if_neg hk]
        by_cases hk1 : k2 = k1
        · simp [tblFind, List.find?_cons, hk1]
        · simpa [tblFind, List.find?_cons, hk1] using ih

lemma tblHaveKey_assign_self (t : Tbl) (k v : Value) :
    tblHaveKey (tblAssignL t k v) k = true := by
  induction t with
  | nil => simp [tblAssignL, tblHaveKey]
  | cons p rest ih =>
      obtain ⟨k2, v2⟩ := p
      by_cases hk : k2 = k
      · simp [tblAssignL, if_pos hk, tblHaveKey, hk]
      · simp only [tblAssignL, if_neg hk]
        simp [tblHaveKey] at ih ⊢
        exact Or.inr ih

lemma tblHaveKey_assign_mono (t : Tbl) (k v k1 : Value)
    (h : tblHaveKey t k1 = true) :
    tblHaveKey (tblAssignL t k v) k1 = true := by
  induction t with
  | nil => simp [tblHaveKey] at h
  | cons p rest ih =>
      obtain ⟨k2, v2⟩ := p
      by_cases hk : k2 = k
      · simpa [tblAssignL, if_pos hk, tblHaveKey, List.any_cons] using h
      · unfold tblHaveKey at h ⊢
        simp only [tblAssignL, if_neg hk, List.any_cons] at h ⊢
        rw [Bool.or_eq_true] at h ⊢
        rcases h with h1 | h2
        · exact Or.inl h1
        · exact Or.inr (ih h2)

/-! ## C8 — ResetCounter -/

/-- C8 (amended): for a stack whose top slot is a counter
`{current, total}`: with `total = 1` ResetCounter is a no-op (the counter,
including its `current` field, is unchanged); with `total = 0` the top
slot afterwards is `{0,1}` with one nil value pushed beneath it; with
`total > 1` the top slot afterwards is `{0,1}` and the top `total − 1`
value slots were popped. -/
theorem resetCounter_coerces_total (s : VMState) (cur tot : Nat)
    (rest : List StackValue) (hs : s.stack = .counter cur tot :: rest) :
    (tot = 1 → vmResetCounter s = .ok s) ∧
    (tot = 0 →
      vmResetCounter s = .ok {s with stack := .counter 0 1 :: .value .nil :: rest}) ∧
    (1 < tot → tot - 1 ≤ rest.length →
      vmResetCounter s = .ok {s with stack := .counter 0 1 :: rest.drop (tot - 1)}) := by
  refine ⟨fun h1 => ?_, fun h0 => ?_, fun hgt hlen => ?_⟩
  · subst h1; simp [vmResetCounter, hs]
  · subst h0; simp [vmResetCounter, hs]
  · have h1 : tot ≠ 1 := by omega
    have h0 : tot ≠ 0 := by omega
    simp [vmResetCounter, hs, h1, h0, hlen]

theorem resetCounter_coerces_total_witness :
    vmResetCounter ⟨[.counter 0 3, .value (.num 1), .value (.num 2),
        .value (.num 3)], [], [], [], 0, 0, [], [], [], 0⟩ =
      .ok ⟨[.counter 0 1, .value (.num 3)], [], [], [], 0, 0, [], [], [], 0⟩ := by
  exact (resetCounter_coerces_total _ 0 3
    [.value (.num 1), .value (.num 2), .value (.num 3)] rfl).2.2
    (by decide) (by decide)

/-- The state refuting C8 as stated: the top slot is the counter `{1, 1}`
(a single-value counter already consumed once by an `Assign`). -/
def exC8 : VMState := ⟨[.counter 1 1], [], [], [], 0, 0, [], [], [], 0⟩

/-- C8 counterexample: with the top counter `{current = 1, total = 1}`,
`ResetCounter` returns at once and the top slot afterwards is still
`{1, 1}` — not a counter with `current = 0` as the claim states. -/
theorem resetCounter_total_one_keeps_current_cex :
    vmResetCounter exC8 = .ok exC8 ∧
    exC8.stack.head? = some (.counter 1 1) ∧
    (StackValue.counter 1 1 : StackValue) ≠ .counter 0 1 := by
  exact ⟨rfl, rfl, by decide⟩

/-! ## C9 — unknown opcodes -/

/-- C9: an instruction whose `op_code` matches none of the seventeen
`case` labels of the dispatch switch executes no handler: the operand
stack, scope-table stack, call stack, instruction base, count, and the
heaps are all unchanged, no error is raised, and the loop silently
advances `ins_current` to the next instruction. -/
theorem unknown_opcode_no_handler (nfx : Nat → List StackValue → List StackValue)
    (s : VMState) (n : Nat) (ins : Instruction)
    (h1 : s.ins_current < s.ins_count) (h2 : 0 ≤ s.ins_current)
    (h3 : s.ins_base[s.ins_current.toNat]? = some ins)
    (h4 : ins.op_code = .other n) :
    runStep nfx s = .ok {s with ins_current := s.ins_current + 1} := by
  simp [runStep, h1, h2, h3, execIns, h4]

theorem unknown_opcode_no_handler_witness :
    runStep (fun _ st => st)
      ⟨[], [], [], [⟨.other 99, .noParam⟩], 1, 0, [], [], [], 0⟩ =
    .ok ⟨[], [], [], [⟨.other 99, .noParam⟩], 1, 1, [], [], [], 0⟩ := by
  exact unknown_opcode_no_handler (fun _ st => st) _ 99 ⟨.other 99, .noParam⟩
    (by decide) (by decide) rfl rfl

/-! ## Assign step lemmas -/

lemma vmAssign_step_lt (s : VMState) (key : Value) (x : StackValue)
    (tid cur tot : Nat) (rest : List StackValue) (t : Tbl) (v : Value)
    (hs : s.stack = .value key :: x :: .value (.table tid) :: .counter cur tot :: rest)
    (ht : s.tables[tid]? = some t) (hk : key ≠ .nil) (hlt : cur < tot)
    (hv : rest[tot - cur - 1]? = some (.value v)) :
    vmAssign s = .ok {s with stack := .counter (cur + 1) tot :: rest,
                             tables := s.tables.set tid (tblAssignL t key v)} := by
  have hidx : ((cur : Int) - (tot : Int) - 1) = -(((tot - cur + 1 : Nat)) : Int) := by
    push_cast [Nat.sub_add_cancel (le_of_lt hlt)]
    omega
  have hread : getStackValue (.counter cur tot :: rest)
      ((cur : Int) - (tot : Int) - 1) = some (.value v) := by
    rw [hidx, getStackValue_negNat _ _ (by omega)]
    have h1 : tot - cur + 1 - 1 = tot - cur := by omega
    rw [h1]
    have h2 : tot - cur = (tot - cur - 1) + 1 := by omega
    rw [h2, List.getElem?_cons_succ]
    exact hv
  simp [vmAssign, hs, hlt, hread, ht, tblAssignChk, hk]

lemma vmAssign_step_ge (s : VMState) (key : Value) (x : StackValue)
    (tid cur tot : Nat) (rest : List StackValue) (t : Tbl)
    (hs : s.stack = .value key :: x :: .value (.table tid) :: .counter cur tot :: rest)
    (ht : s.tables[tid]? = some t) (hk : key ≠ .nil) (hge : tot ≤ cur) :
    vmAssign s = .ok {s with stack := .counter cur tot :: rest,
                             tables := s.tables.set tid (tblAssignL t key .nil)} := by
  have hnlt : ¬ cur < tot := by omega
  simp [vmAssign, hs, hnlt, ht, tblAssignChk, hk]

/-! ## C7 — stack balance of Assign and CleanStack -/

/-- C7: an `Assign` on the expected stack shape succeeds and shrinks the
operand stack by exactly 3 slots (key, its counter, the table — the RHS
counter stays); a `CleanStack` on a top counter of total `N` succeeds and
shrinks the stack by exactly `N + 1` slots. -/
theorem assign_cleanstack_stack_balance :
    (∀ (s : VMState) (key : Value) (x : StackValue) (tid cur tot : Nat)
       (rest : List StackValue) (t : Tbl),
       s.stack = .value key :: x :: .value (.table tid) ::
         .counter cur tot :: rest →
       s.tables[tid]? = some t → key ≠ .nil →
       (cur < tot → ∃ v, rest[tot - cur - 1]? = some (.value v)) →
       ∃ s1, vmAssign s = .ok s1 ∧ s1.stack.length + 3 = s.stack.length) ∧
    (∀ (s : VMState) (cur tot : Nat) (rest : List StackValue),
       s.stack = .counter cur tot :: rest → tot ≤ rest.length →
       ∃ s1, vmCleanStack s = .ok s1 ∧
         s1.stack.length + (tot + 1) = s.stack.length) := by
  constructor
  · intro s key x tid cur tot rest t hs ht hk hv
    by_cases hlt : cur < tot
    · obtain ⟨v, hv⟩ := hv hlt
      refine ⟨_, vmAssign_step_lt s key x tid cur tot rest t v hs ht hk hlt hv, ?_⟩
      simp [hs]
    · refine ⟨_, vmAssign_step_ge s key x tid cur tot rest t hs ht hk (by omega), ?_⟩
      simp [hs]
  · intro s cur tot rest hs hlen
    have h : vmCleanStack s = .ok {s with stack := rest.drop tot} := by
      simp [vmCleanStack, hs, hlen]
    refine ⟨_, h, ?_⟩
    simp [hs, List.length_drop]
    omega

theorem assign_cleanstack_stack_balance_witness :
    (∃ s1, vmAssign ⟨[.value (.str "x"), .counter 0 1, .value (.table 0),
        .counter 0 1, .value (.num 7)], [0], [], [], 0, 0, [[]], [], [], 0⟩ =
        .ok s1 ∧ s1.stack.length + 3 = 5) ∧
    (∃ s1, vmCleanStack ⟨[.counter 1 1, .value (.num 7)], [0], [], [], 0, 0,
        [[]], [], [], 0⟩ = .ok s1 ∧ s1.stack.length + (1 + 1) = 2) := by
  constructor
  · exact assign_cleanstack_stack_balance.1 _ (.str "x") (.counter 0 1) 0 0 1
      [.value (.num 7)] [] rfl rfl (by decide)
      (fun _ => ⟨.num 7, rfl⟩)
  · exact assign_cleanstack_stack_balance.2 _ 1 1 [.value (.num 7)] rfl
      (by decide)

/-! ## C10 — Call pushes the record before the type check -/

/-- C10: when `Call` throws "attempt to call <type>" because the callee
is neither a closure nor a native function, the new call record —
snapshotting the caller's instruction base, count and offset and holding
the invalid callee, with `callee_tables = 0` — has already been pushed
and is still on the call stack in the state carried by the error. -/
theorem call_error_record_remains_pushed
    (nfx : Nat → List StackValue → List StackValue) (s : VMState)
    (ac atot c2 : Nat) (tail : List StackValue) (v : Value)
    (hs : s.stack = .counter ac atot :: tail)
    (h2 : getStackValue s.stack (-2 - (atot : Int)) = some (.counter c2 1))
    (h3 : getStackValue s.stack (-3 - (atot : Int)) = some (.value v))
    (hty : v.typeOf ≠ some .function ∧ v.typeOf ≠ some .nativeFunction)
    (hnn : v ≠ .nullp) :
    ∃ nm, v.nameOf = some nm ∧
      vmCall nfx s = .err ("attempt to call " ++ nm)
        {s with call_stack :=
          ⟨s.ins_base, s.ins_count, s.ins_current, some v, 0⟩ :: s.call_stack} := by
  rw [hs] at h2 h3
  cases v with
  | nil => exact ⟨"nil", rfl, by simp [vmCall, hs, h2, h3, Value.nameOf]⟩
  | boolean b => exact ⟨"bool", rfl, by simp [vmCall, hs, h2, h3, Value.nameOf]⟩
  | num n => exact ⟨"number", rfl, by simp [vmCall, hs, h2, h3, Value.nameOf]⟩
  | str s1 => exact ⟨"string", rfl, by simp [vmCall, hs, h2, h3, Value.nameOf]⟩
  | table tid => exact ⟨"table", rfl, by simp [vmCall, hs, h2, h3, Value.nameOf]⟩
  | closure cid => exact absurd rfl hty.1
  | funcVal fid => exact absurd rfl hty.1
  | native nid => exact absurd rfl hty.2
  | nullp => exact absurd rfl hnn

theorem call_error_record_remains_pushed_witness :
    vmCall (fun _ st => st)
      ⟨[.counter 0 0, .counter 0 1, .value (.num 5)], [], [],
        [⟨.call, .noParam⟩], 1, 0, [], [], [], 0⟩ =
    .err "attempt to call number"
      ⟨[.counter 0 0, .counter 0 1, .value (.num 5)], [],
        [⟨[⟨.call, .noParam⟩], 1, 0, some (.num 5), 0⟩],
        [⟨.call, .noParam⟩], 1, 0, [], [], [], 0⟩ := by
  obtain ⟨nm, hnm, h⟩ := call_error_record_remains_pushed (fun _ st => st)
    ⟨[.counter 0 0, .counter 0 1, .value (.num 5)], [], [],
      [⟨.call, .noParam⟩], 1, 0, [], [], [], 0⟩
    0 0 0 [.counter 0 1, .value (.num 5)] (.num 5) rfl rfl rfl
    (by decide) (by decide)
  have hnm5 : nm = "number" := by
    simpa [Value.nameOf] using hnm.symm
  rw [hnm5] at h
  exact h

/-! ## C5 — Call type check -/

/-- C5: with the expected stack shape at `Call` — argument counter on
top, a callee counter of total 1 and the callee value beneath — the
runtime error "attempt to call <type>" is raised if and only if the
callee's type is neither `TYPE_FUNCTION` nor `TYPE_NATIVE_FUNCTION`; when
raised, the message names the callee's type.  A script-closure callee
redirects execution into the callee's instructions (with
`ins_current = −1`), and a native callee is invoked synchronously and
redirected into the built-in single-`Ret` bootstrap — in both cases no
error.  `v` ranges over genuine runtime values: a null `Value*` or a raw
`Function` object never occupies an operand-stack value slot. -/
theorem call_type_error_iff
    (nfx : Nat → List StackValue → List StackValue) (s : VMState)
    (ac atot c2 : Nat) (tail : List StackValue) (v : Value)
    (hs : s.stack = .counter ac atot :: tail)
    (h2 : getStackValue s.stack (-2 - (atot : Int)) = some (.counter c2 1))
    (h3 : getStackValue s.stack (-3 - (atot : Int)) = some (.value v))
    (hnn : v ≠ .nullp) (hnf : ∀ fid, v ≠ .funcVal fid)
    (hcl : ∀ cid, v = .closure cid →
      ∃ cl fn, s.closures[cid]? = some cl ∧ s.funcs[cl.func]? = some fn) :
    ((∃ m s1, vmCall nfx s = .err m s1) ↔
      (v.typeOf ≠ some .function ∧ v.typeOf ≠ some .nativeFunction)) ∧
    (∀ m s1, vmCall nfx s = .err m s1 →
      ∃ nm, v.nameOf = some nm ∧ m = "attempt to call " ++ nm) ∧
    (∀ cid, v = .closure cid → ∃ cl fn,
      s.closures[cid]? = some cl ∧ s.funcs[cl.func]? = some fn ∧
      vmCall nfx s = .ok {s with
        call_stack :=
          ⟨s.ins_base, s.ins_count, s.ins_current, some v, 0⟩ :: s.call_stack,
        ins_base := fn.instructions,
        ins_count := (fn.instructions.length : Int),
        ins_current := -1}) ∧
    (∀ nid, v = .native nid →
      vmCall nfx s = .ok {s with
        stack := nfx nid s.stack,
        call_stack :=
          ⟨s.ins_base, s.ins_count, s.ins_current, some v, 0⟩ :: s.call_stack,
        ins_base := nativeRetBoot,
        ins_count := (nativeRetBoot.length : Int),
        ins_current := -1}) := by
  rw [hs] at h2 h3
  cases v with
  | closure cid =>
      obtain ⟨cl, fn, hc, hf⟩ := hcl cid rfl
      have heval : vmCall nfx s = .ok {s with
          call_stack :=
            ⟨s.ins_base, s.ins_count, s.ins_current, some (.closure cid), 0⟩ ::
              s.call_stack,
          ins_base := fn.instructions,
          ins_count := (fn.instructions.length : Int),
          ins_current := -1} := by
        simp [vmCall, hs, h2, h3, hc, hf]
      refine ⟨?_, ?_, ?_, ?_⟩
      · simp [heval, Value.typeOf]
      · intro m s1 hme
        rw [heval] at hme
        cases hme
      · intro cid2 hv
        cases hv
        exact ⟨cl, fn, hc, hf, heval⟩
      · intro nid hv
        cases hv
  | native nid =>
      have heval : vmCall nfx s = .ok {s with
          stack := nfx nid s.stack,
          call_stack :=
            ⟨s.ins_base, s.ins_count, s.ins_current, some (.native nid), 0⟩ ::
              s.call_stack,
          ins_base := nativeRetBoot,
          ins_count := (nativeRetBoot.length : Int),
          ins_current := -1} := by
        simp [vmCall, hs, h2, h3]
      refine ⟨?_, ?_, ?_, ?_⟩
      · simp [heval, Value.typeOf]
      · intro m s1 hme
        rw [heval] at hme
        cases hme
      · intro cid2 hv
        cases hv
      · intro nid2 hv
        cases hv
        exact heval
  | nullp => exact absurd rfl hnn
  | funcVal fid => exact absurd rfl (hnf fid)
  | nil =>
      have heval : vmCall nfx s = .err ("attempt to call " ++ "nil")
          {s with call_stack :=
            ⟨s.ins_base, s.ins_count, s.ins_current, some .nil, 0⟩ ::
              s.call_stack} := by
        simp [vmCall, hs, h2, h3, Value.nameOf]
      refine ⟨?_, ?_, ?_, ?_⟩
      · simp [heval, Value.typeOf]
      · intro m s1 hme
        rw [heval] at hme
        cases hme
        exact ⟨"nil", rfl, rfl⟩
      · intro cid2 hv
        cases hv
      · intro nid2 hv
        cases hv
  | boolean b =>
      have heval : vmCall nfx s = .err ("attempt to call " ++ "bool")
          {s with call_stack :=
            ⟨s.ins_base, s.ins_count, s.ins_current, some (.boolean b), 0⟩ ::
              s.call_stack} := by
        simp [vmCall, hs, h2, h3, Value.nameOf]
      refine ⟨?_, ?_, ?_, ?_⟩
      · simp [heval, Value.typeOf]
      · intro m s1 hme
        rw [heval] at hme
        cases hme
        exact ⟨"bool", rfl, rfl⟩
      · intro cid2 hv
        cases hv
      · intro nid2 hv
        cases hv
  | num n =>
      have heval : vmCall nfx s = .err ("attempt to call " ++ "number")
          {s with call_stack :=
            ⟨s.ins_base, s.ins_count, s.ins_current, some (.num n), 0⟩ ::
              s.call_stack} := by
        simp [vmCall, hs, h2, h3, Value.nameOf]
      refine ⟨?_, ?_, ?_, ?_⟩
      · simp [heval, Value.typeOf]
      · intro m s1 hme
        rw [heval] at hme
        cases hme
        exact ⟨"number", rfl, rfl⟩
      · intro cid2 hv
        cases hv
      · intro nid2 hv
        cases hv
  | str s2 =>
      have heval : vmCall nfx s = .err ("attempt to call " ++ "string")
          {s with call_stack :=
            ⟨s.ins_base, s.ins_count, s.ins_current, some (.str s2), 0⟩ ::
              s.call_stack} := by
        simp [vmCall, hs, h2, h3, Value.nameOf]
      refine ⟨?_, ?_, ?_, ?_⟩
      · simp [heval, Value.typeOf]
      · intro m s1 hme
        rw [heval] at hme
        cases hme
        exact ⟨"string", rfl, rfl⟩
      · intro cid2 hv
        cases hv
      · intro nid2 hv
        cases hv
  | table tid =>
      have heval : vmCall nfx s = .err ("attempt to call " ++ "table")
          {s with call_stack :=
            ⟨s.ins_base, s.ins_count, s.ins_current, some (.table tid), 0⟩ ::
              s.call_stack} := by
        simp [vmCall, hs, h2, h3, Value.nameOf]
      refine ⟨?_, ?_, ?_, ?_⟩
      · simp [heval, Value.typeOf]
      · intro m s1 hme
        rw [heval] at hme
        cases hme
        exact ⟨"table", rfl, rfl⟩
      · intro cid2 hv
        cases hv
      · intro nid2 hv
        cases hv

/-- Concrete state for the C5 witness: the callee slot holds the string
"f". -/
def exC5 : VMState :=
  ⟨[.counter 0 0, .counter 0 1, .value (.str "f")], [], [], [], 0, 0,
    [], [], [], 0⟩

theorem call_type_error_iff_witness :
    ((∃ m s1, vmCall (fun _ st => st) exC5 = .err m s1) ↔
      ((Value.str "f").typeOf ≠ some .function ∧
        (Value.str "f").typeOf ≠ some .nativeFunction)) ∧
    ((Value.str "f").typeOf ≠ some .function ∧
      (Value.str "f").typeOf ≠ some .nativeFunction) := by
  constructor
  · exact (call_type_error_iff (fun _ st => st) exC5 0 0 0
      [.counter 0 1, .value (.str "f")] (.str "f") rfl rfl rfl
      (by decide) (fun fid h => by cases h)
      (fun cid h => by cases h)).1
  · decide

/-! ## C1 — GetTable fallback to the upvalue table -/

/-- The upvalue-table pointer of a closure as pushed by `GetTable`: the
table reference, or the null pointer when the closure has no upvalue
table. -/
def upvaluePtr (cl : ClosureObj) : Value :=
  match cl.upvalue with
  | some uid => .table uid
  | none => .nullp

/-- C1 (amended): when the name is not found in any of the scanned scope
tables (the scan over the current frame's `callee_tables` tables ran to
completion without a match) and the current call record's callee is a
(non-null) closure, `GetTable` pushes the closure's upvalue-table pointer
— null when the closure has no upvalue table — followed by a counter
`{0,1}`, and raises no error.  When the callee is null (the global
frame), the handler dereferences the null callee instead (see the
counterexample): the claim's "including when the callee is null" does
not hold. -/
theorem getTable_miss_pushes_upvalue_table (s : VMState) (ins : Instruction)
    (key : Value) (info : CallStackInfo) (csrest : List CallStackInfo)
    (cid : Nat) (cl : ClosureObj)
    (hp : ins.param_a = .name key)
    (hcs : s.call_stack = info :: csrest)
    (hscan : getTableScan s.tables s.nest_tables key info.callee_tables = some none)
    (hcallee : info.callee = some (.closure cid))
    (hcl : s.closures[cid]? = some cl) :
    vmGetTable s ins =
      .ok {s with stack := .counter 0 1 :: .value (upvaluePtr cl) :: s.stack} ∧
    ∀ m s1, vmGetTable s ins ≠ .err m s1 := by
  have heval : vmGetTable s ins =
      .ok {s with stack := .counter 0 1 :: .value (upvaluePtr cl) :: s.stack} := by
    cases hu : cl.upvalue <;>
      simp [vmGetTable, hp, hcs, hscan, hcallee, hcl, upvaluePtr, hu]
  refine ⟨heval, ?_⟩
  intro m s1 hme
  rw [heval] at hme
  cases hme

/-- Concrete state for the C1 witness: one scope table (table 1, empty)
owned by the current frame, whose callee is closure 0 with upvalue
table 0. -/
def exC1w : VMState :=
  ⟨[], [1], [⟨[], 0, 0, some (.closure 0), 1⟩], [], 0, 0,
    [[(Value.str "n", Value.num 3)], []], [⟨0, some 0⟩],
    [⟨[], [Value.str "n"]⟩], 0⟩

theorem getTable_miss_pushes_upvalue_table_witness :
    vmGetTable exC1w ⟨.getTable, .name (.str "x")⟩ =
      .ok {exC1w with stack := [.counter 0 1, .value (.table 0)]} := by
  exact (getTable_miss_pushes_upvalue_table exC1w ⟨.getTable, .name (.str "x")⟩
    (.str "x") ⟨[], 0, 0, some (.closure 0), 1⟩ [] 0 ⟨0, some 0⟩
    rfl rfl rfl rfl rfl).1

/-- The state refuting C1 as stated: the global frame (callee null,
`callee_tables = 1`, the global table holding no binding for the key). -/
def exC1 : VMState :=
  ⟨[], [0], [⟨[], 0, 0, none, 1⟩], [], 0, 0, [[]], [], [], 0⟩

/-- C1 counterexample: in the global frame (the call record's callee is
null) with the key found in no scope table, `GetTable` does not push the
upvalue table and counter — it dereferences the null callee
(`callee->Type()`), i.e. crashes, contradicting "never raises an error at
this stage — including when the current call record's callee is null". -/
theorem getTable_null_callee_cex :
    vmGetTable exC1 ⟨.getTable, .name (.str "x")⟩ = .crash ∧
    ∀ s1, vmGetTable exC1 ⟨.getTable, .name (.str "x")⟩ ≠ .ok s1 := by
  refine ⟨rfl, ?_⟩
  intro s1 h
  rw [(rfl : vmGetTable exC1 ⟨.getTable, .name (.str "x")⟩ = .crash)] at h
  cases h

/-! ## C2 — the owner-table scan is not bounded by callee_tables -/

/-- The failing input for C2: the current frame (callee = closure 0 with
upvalue table 2 holding the key) owns exactly one scope table — table 1,
which does not hold the key "x" — while the caller frame's scope table 0
does hold "x". -/
def exC2 : VMState :=
  ⟨[], [1, 0],
   [⟨[], 0, 0, some (.closure 0), 1⟩, ⟨[], 0, 0, none, 1⟩],
   [], 0, 0,
   [[(.str "x", .num 7)], [], [(.str "x", .num 9)]],
   [⟨0, some 2⟩], [⟨[], [.str "x"]⟩], 0⟩

/-- C2 refutation: the current frame's `callee_tables` is 1, so by the
claim the first search step may only return scope table 1 (the innermost
one); instead `GetUpvalueKeyOwnerTable` returns scope table 0, which
belongs to the outer (caller) frame — the loop tests `callee_tables > 0`
but never decrements it, so it scans every scope table. -/
theorem ownerScan_returns_outer_frame_table :
    getUpvalueKeyOwnerTable exC2 (.str "x") = .ok 0 exC2 ∧
    exC2.nest_tables.take 1 = [1] ∧
    (∀ info rest, exC2.call_stack = info :: rest → info.callee_tables = 1) ∧
    (0 : Nat) ∉ exC2.nest_tables.take 1 := by
  refine ⟨rfl, rfl, ?_, by decide⟩
  intro info rest h
  cases h
  rfl

/-! ## C3 — upvalue capture infrastructure -/

lemma owner_ok_tables {s : VMState} {key : Value} {tid : Nat} {s2 : VMState}
    (h : getUpvalueKeyOwnerTable s key = .ok tid s2) :
    s2.stack = s.stack ∧ s2.nest_tables = s.nest_tables ∧
    s2.call_stack = s.call_stack ∧ s2.closures = s.closures ∧
    s2.funcs = s.funcs ∧ s2.ins_base = s.ins_base ∧
    s2.ins_count = s.ins_count ∧ s2.ins_current = s.ins_current ∧
    s2.globalTable = s.globalTable ∧
    (s2.tables = s.tables ∨ ∃ tid2 t2, s.tables[tid2]? = some t2 ∧
      s2.tables = s.tables.set tid2 (tblAssignL t2 key .nil)) := by
  unfold getUpvalueKeyOwnerTable at h
  cases hcs : s.call_stack with
  | nil => rw [hcs] at h; cases h
  | cons info csrest =>
      rw [hcs] at h
      dsimp only at h
      cases hscan : (if 0 < info.callee_tables
          then ownerScan s.tables s.nest_tables key else some none) with
      | none => rw [hscan] at h; cases h
      | some o =>
          rw [hscan] at h
          cases o with
          | some tid0 =>
              cases h
              exact ⟨rfl, rfl, hcs, rfl, rfl, rfl, rfl, rfl, rfl, Or.inl rfl⟩
          | none =>
              dsimp only at h
              cases hcal : info.callee with
              | some v =>
                  rw [hcal] at h
                  cases v with
                  | closure cid =>
                      dsimp only at h
                      cases hcl : s.closures[cid]? with
                      | none => rw [hcl] at h; cases h
                      | some cl =>
                          rw [hcl] at h
                          dsimp only at h
                          cases hup : cl.upvalue with
                          | none => rw [hup] at h; cases h
                          | some uid =>
                              rw [hup] at h
                              dsimp only at h
                              cases hut : s.tables[uid]? with
                              | none => rw [hut] at h; cases h
                              | some t =>
                                  rw [hut] at h
                                  dsimp only at h
                                  split at h
                                  · cases h
                                    exact ⟨rfl, rfl, hcs, rfl, rfl, rfl, rfl,
                                      rfl, rfl, Or.inl rfl⟩
                                  · cases h
                  | nil => dsimp only at h; cases h
                  | boolean b => dsimp only at h; cases h
                  | num n => dsimp only at h; cases h
                  | str s3 => dsimp only at h; cases h
                  | table tid3 => dsimp only at h; cases h
                  | funcVal fid => dsimp only at h; cases h
                  | native nid => dsimp only at h; cases h
                  | nullp => dsimp only at h; cases h
              | none =>
                  rw [hcal] at h
                  dsimp only at h
                  split at h
                  · cases hnt : s.nest_tables with
                    | nil => rw [hnt] at h; cases h
                    | cons tid0 ntrest =>
                        rw [hnt] at h
                        dsimp only at h
                        cases htt : s.tables[tid0]? with
                        | none => rw [htt] at h; cases h
                        | some t0 =>
                            rw [htt] at h
                            dsimp only at h
                            cases hch : tblAssignChk t0 key .nil with
                            | none => rw [hch] at h; cases h
                            | some t2 =>
                                rw [hch] at h
                                cases h
                                refine ⟨rfl, rfl, rfl, rfl, rfl, rfl, rfl,
                                  rfl, rfl, Or.inr ⟨tid, t0, htt, ?_⟩⟩
                                unfold tblAssignChk at hch
                                split at hch
                                · cases hch
                                · cases hch
                                  rfl
                  · cases h

lemma haveKey_set_assign (heap : List Tbl) (tid uid : Nat) (t : Tbl)
    (k v k1 : Value) (ht : heap[tid]? = some t) (u : Tbl)
    (hu : heap[uid]? = some u) (hk : tblHaveKey u k1 = true) :
    ∃ u2, (heap.set tid (tblAssignL t k v))[uid]? = some u2 ∧
      tblHaveKey u2 k1 = true := by
  by_cases he : tid = uid
  · subst he
    rw [hu] at ht
    cases ht
    refine ⟨tblAssignL t k v, ?_, tblHaveKey_assign_mono t k v k1 hk⟩
    rw [List.getElem?_set_self]
    exact (List.getElem?_eq_some_iff.mp hu).1
  · exact ⟨u, by rw [List.getElem?_set_ne he]; exact hu, hk⟩

lemma seedUpvalues_ok (uid : Nat) : ∀ (names : List Value) (s s1 : VMState),
    seedUpvalues uid names s = .ok s1 →
    s1.stack = s.stack ∧ s1.nest_tables = s.nest_tables ∧
    s1.call_stack = s.call_stack ∧ s1.closures = s.closures ∧
    s1.funcs = s.funcs ∧ s1.ins_base = s.ins_base ∧
    s1.ins_count = s.ins_count ∧ s1.ins_current = s.ins_current ∧
    s1.globalTable = s.globalTable ∧
    s1.tables.length = s.tables.length ∧
    (∀ k u, s.tables[uid]? = some u → tblHaveKey u k = true →
      ∃ u1, s1.tables[uid]? = some u1 ∧ tblHaveKey u1 k = true) ∧
    (∀ n ∈ names, ∃ u1, s1.tables[uid]? = some u1 ∧ tblHaveKey u1 n = true)
  | [], s, s1, h => by
      cases h
      refine ⟨rfl, rfl, rfl, rfl, rfl, rfl, rfl, rfl, rfl, rfl, ?_, ?_⟩
      · intro k u hu hk
        exact ⟨u, hu, hk⟩
      · intro n hn
        simp at hn
  | n :: rest, s, s1, h => by
      unfold seedUpvalues at h
      cases ho : getUpvalueKeyOwnerTable s n with
      | crash => rw [ho] at h; cases h
      | err m s2 => rw [ho] at h; cases h
      | ok tid s2 =>
          rw [ho] at h
          dsimp only at h
          cases hto : s2.tables[tid]? with
          | none => rw [hto] at h; cases h
          | some t =>
              rw [hto] at h
              dsimp only at h
              cases huo : s2.tables[uid]? with
              | none => rw [huo] at h; cases h
              | some ut =>
                  rw [huo] at h
                  dsimp only at h
                  cases hch : tblAssignChk ut n (tblGetValue t n) with
                  | none => rw [hch] at h; cases h
                  | some ut1 =>
                      rw [hch] at h
                      have hut1 : ut1 = tblAssignL ut n (tblGetValue t n) := by
                        unfold tblAssignChk at hch
                        split at hch
                        · cases hch
                        · cases hch; rfl
                      obtain ⟨o1, o2, o3, o4, o5, o6, o7, o8, o9, o10⟩ :=
                        owner_ok_tables ho
                      obtain ⟨i1, i2, i3, i4, i5, i6, i7, i8, i9, i10, imono,
                        imem⟩ := seedUpvalues_ok uid rest _ s1 h
                      have huid_lt : uid < s2.tables.length :=
                        (List.getElem?_eq_some_iff.mp huo).1
                      have hs2len : s2.tables.length = s.tables.length := by
                        rcases o10 with h10 | ⟨tid2, t2, _, h10⟩ <;> simp [h10]
                      refine ⟨by simp_all, by simp_all, by simp_all,
                        by simp_all, by simp_all, by simp_all, by simp_all,
                        by simp_all, by simp_all, ?_, ?_, ?_⟩
                      · simp only [List.length_set] at i10
                        rw [i10, hs2len]
                      · intro k u hu hk
                        have step2 : ∃ u2, s2.tables[uid]? = some u2 ∧
                            tblHaveKey u2 k = true := by
                          rcases o10 with h10 | ⟨tid2, t2, ht2, h10⟩
                          · exact ⟨u, by rw [h10]; exact hu, hk⟩
                          · rw [h10]
                            exact haveKey_set_assign s.tables tid2 uid t2 n
                              Value.nil k ht2 u hu hk
                        obtain ⟨u2, hu2, hk2⟩ := step2
                        rw [huo] at hu2
                        cases hu2
                        apply imono k ut1
                        · simp [List.getElem?_set_self, huid_lt]
                        · rw [hut1]
                          exact tblHaveKey_assign_mono ut n _ k hk2
                      · intro n2 hn2
                        rcases List.mem_cons.mp hn2 with hn2 | hn2
                        · subst hn2
                          apply imono n2 ut1
                          · simp [List.getElem?_set_self, huid_lt]
                          · rw [hut1]
                            exact tblHaveKey_assign_self ut n2 _
                        · exact imem n2 hn2

lemma genClosure_core {s s1 : VMState} {fn : FuncObj} {fid : Nat}
    (h : (if fn.upvalues.isEmpty then
            HResult.ok {s with
              closures := s.closures ++ [⟨fid, none⟩],
              stack := .counter 0 1 ::
                .value (.closure s.closures.length) :: s.stack}
          else
            seedUpvalues s.tables.length fn.upvalues {s with
              tables := s.tables ++ [[]],
              closures := s.closures ++ [⟨fid, some s.tables.length⟩],
              stack := .counter 0 1 ::
                .value (.closure s.closures.length) :: s.stack}) = .ok s1) :
    ∃ uidOpt,
      s1.closures = s.closures ++ [⟨fid, uidOpt⟩] ∧
      s1.nest_tables = s.nest_tables ∧ s1.call_stack = s.call_stack ∧
      s1.funcs = s.funcs ∧
      (uidOpt = none → fn.upvalues = [] ∧ s1.tables = s.tables) ∧
      (∀ uid, uidOpt = some uid → uid = s.tables.length ∧
        s1.tables.length = s.tables.length + 1 ∧
        (∀ n ∈ fn.upvalues, ∃ u, s1.tables[uid]? = some u ∧
          tblHaveKey u n = true)) := by
  by_cases hemp : fn.upvalues.isEmpty
  · rw [if_pos hemp] at h
    cases h
    refine ⟨none, rfl, rfl, rfl, rfl, ?_, ?_⟩
    · intro hq
      exact ⟨List.isEmpty_iff.mp hemp, rfl⟩
    · intro uid hq
      cases hq
  · rw [if_neg hemp] at h
    obtain ⟨i1, i2, i3, i4, i5, i6, i7, i8, i9, i10, imono, imem⟩ :=
      seedUpvalues_ok s.tables.length fn.upvalues _ s1 h
    refine ⟨some s.tables.length, by rw [i4], by rw [i2], by rw [i3],
      by rw [i5], ?_, ?_⟩
    · intro hq
      cases hq
    · intro uid hq
      cases hq
      refine ⟨rfl, ?_, imem⟩
      rw [i10]
      simp

lemma vmGenerateClosure_ok_shape {s : VMState} {ins : Instruction}
    {s1 : VMState} (h : vmGenerateClosure s ins = .ok s1) :
    ∃ fid fn uidOpt,
      (ins.param_a = .name (.funcVal fid) ∨ ins.param_a = .value (.funcVal fid)) ∧
      s.funcs[fid]? = some fn ∧
      s1.closures = s.closures ++ [⟨fid, uidOpt⟩] ∧
      s1.nest_tables = s.nest_tables ∧ s1.call_stack = s.call_stack ∧
      s1.funcs = s.funcs ∧
      (uidOpt = none → fn.upvalues = [] ∧ s1.tables = s.tables) ∧
      (∀ uid, uidOpt = some uid → uid = s.tables.length ∧
        s1.tables.length = s.tables.length + 1 ∧
        (∀ n ∈ fn.upvalues, ∃ u, s1.tables[uid]? = some u ∧
          tblHaveKey u n = true)) := by
  unfold vmGenerateClosure at h
  cases hpa : ins.param_a with
  | name fv =>
      rw [hpa] at h
      dsimp only at h
      cases fv with
      | funcVal fid =>
          dsimp only at h
          cases hfn : s.funcs[fid]? with
          | none => rw [hfn] at h; cases h
          | some fn =>
              rw [hfn] at h
              dsimp only at h
              obtain ⟨uidOpt, rest⟩ := genClosure_core h
              exact ⟨fid, fn, uidOpt, Or.inl rfl, hfn, rest⟩
      | nil => dsimp only at h; cases h
      | boolean b => dsimp only at h; cases h
      | num n => dsimp only at h; cases h
      | str s2 => dsimp only at h; cases h
      | table t => dsimp only at h; cases h
      | closure c => dsimp only at h; cases h
      | native n => dsimp only at h; cases h
      | nullp => dsimp only at h; cases h
  | value fv =>
      rw [hpa] at h
      dsimp only at h
      cases fv with
      | funcVal fid =>
          dsimp only at h
          cases hfn : s.funcs[fid]? with
          | none => rw [hfn] at h; cases h
          | some fn =>
              rw [hfn] at h
              dsimp only at h
              obtain ⟨uidOpt, rest⟩ := genClosure_core h
              exact ⟨fid, fn, uidOpt, Or.inr rfl, hfn, rest⟩
      | nil => dsimp only at h; cases h
      | boolean b => dsimp only at h; cases h
      | num n => dsimp only at h; cases h
      | str s2 => dsimp only at h; cases h
      | table t => dsimp only at h; cases h
      | closure c => dsimp only at h; cases h
      | native n => dsimp only at h; cases h
      | nullp => dsimp only at h; cases h
  | counter tot => rw [hpa] at h; cases h
  | counterIndex ci => rw [hpa] at h; cases h
  | noParam => rw [hpa] at h; cases h

/-- C3: a closure created by `GenerateClosure` with declared upvalue
names holds, in its freshly allocated upvalue table, an entry for every
declared name — the value copied at closure-creation time.  The upvalue
table's id equals the pre-creation heap size, so it is distinct from
every table that existed at creation (in particular from every owning
scope table); hence a later `Table::Assign` to any such table — which
the VM performs as `tables.set tid (tblAssignL t k v)` — leaves the
closure's upvalue table entirely unchanged: upvalues are captured by
value, not by reference. -/
theorem closure_upvalues_captured_by_value (s : VMState) (ins : Instruction)
    (s1 : VMState) (cl : ClosureObj) (uid : Nat)
    (h : vmGenerateClosure s ins = .ok s1)
    (hcl : s1.closures[s.closures.length]? = some cl)
    (hup : cl.upvalue = some uid) :
    uid = s.tables.length ∧
    (∀ fn, s.funcs[cl.func]? = some fn →
      ∀ n ∈ fn.upvalues, ∃ u, s1.tables[uid]? = some u ∧
        tblHaveKey u n = true) ∧
    (∀ tid t k v, tid < s.tables.length →
      (s1.tables.set tid (tblAssignL t k v))[uid]? = s1.tables[uid]?) := by
  obtain ⟨fid, fn0, uidOpt, hpar, hfn0, hclos, hnest, hcall, hfuncs, hnone,
    hsome⟩ := vmGenerateClosure_ok_shape h
  have hget : (s.closures ++ [(⟨fid, uidOpt⟩ : ClosureObj)])[s.closures.length]? =
      some ⟨fid, uidOpt⟩ := by
    rw [List.getElem?_append_right (le_refl _)]
    simp
  rw [hclos, hget] at hcl
  cases hcl
  have hup2 : uidOpt = some uid := hup
  subst hup2
  obtain ⟨huid, hlen, hmem⟩ := hsome uid rfl
  dsimp only
  refine ⟨huid, ?_, ?_⟩
  · intro fn hfn
    rw [hfn0] at hfn
    cases hfn
    exact hmem
  · intro tid t k v htid
    apply List.getElem?_set_ne
    omega

/-- Concrete pre-state for the C3 witness (scenario S4): the global scope
table binds "n" to 1; function 0 declares the single upvalue "n". -/
def exC3 : VMState :=
  ⟨[], [0], [⟨[], 0, 0, none, 1⟩], [], 0, 0,
    [[(Value.str "n", Value.num 1)]], [], [⟨[], [Value.str "n"]⟩], 0⟩

/-- The state after `GenerateClosure` on `exC3`: closure 0 was pushed
with fresh upvalue table 1 holding the captured value "n" → 1. -/
def exC3res : VMState :=
  ⟨[.counter 0 1, .value (.closure 0)], [0], [⟨[], 0, 0, none, 1⟩], [], 0, 0,
    [[(Value.str "n", Value.num 1)], [(Value.str "n", Value.num 1)]],
    [⟨0, some 1⟩], [⟨[], [Value.str "n"]⟩], 0⟩

theorem closure_upvalues_captured_by_value_witness :
    vmGenerateClosure exC3 ⟨.generateClosure, .value (.funcVal 0)⟩ =
      .ok exC3res ∧
    (exC3res.tables.set 0
        (tblAssignL [(Value.str "n", Value.num 1)] (.str "n") (.num 2)))[1]? =
      exC3res.tables[1]? ∧
    tblFind [(Value.str "n", Value.num 1)] (.str "n") = some (.num 1) := by
  have h : vmGenerateClosure exC3 ⟨.generateClosure, .value (.funcVal 0)⟩ =
      .ok exC3res := by decide
  refine ⟨h, ?_, by decide⟩
  exact (closure_upvalues_captured_by_value exC3
    ⟨.generateClosure, .value (.funcVal 0)⟩ exC3res ⟨0, some 1⟩ 1 h rfl rfl).2.2
    0 [(Value.str "n", Value.num 1)] (.str "n") (.num 2) (by decide)

/-! ## C4 — truncate-pad multiple assignment -/

/-- The per-key instruction sequence the compiler emits for one LHS key
of a multiple assignment: the target table plus its counter `{0,1}` (as
`GetLocalTable` pushes them) and the key (as `Push Name` pushes it,
directly, with no counter), followed by the `Assign` handler. -/
def assignRound (tid : Nat) (key : Value) (s : VMState) : HResult :=
  vmAssign {s with
    stack := .value key :: .counter 0 1 :: .value (.table tid) :: s.stack}

/-- `assignRound` iterated over a list of LHS keys, all targeting the
same table — K successive `Assign`s consuming the same RHS counter. -/
def assignK (tid : Nat) (keys : List Value) (s : VMState) : HResult :=
  match keys with
  | [] => .ok s
  | k :: rest =>
      match assignRound tid k s with
      | .ok s1 => assignK tid rest s1
      | r => r

lemma run_read (vs : List Value) (rest : List StackValue) (cur tot : Nat)
    (hlen : vs.length = tot) (hlt : cur < tot) :
    ((vs.reverse.map StackValue.value) ++ rest)[tot - cur - 1]? =
      some (.value (vs.getD cur .nil)) := by
  have h1 : tot - cur - 1 < (vs.reverse.map StackValue.value).length := by
    simp [hlen]
    omega
  rw [List.getElem?_append_left h1, List.getElem?_map]
  have h2 : tot - cur - 1 < vs.reverse.length := by
    simp [hlen]
    omega
  rw [List.getElem?_reverse (by simp [hlen]; omega)]
  have h3 : vs.length - 1 - (tot - cur - 1) = cur := by omega
  rw [h3]
  have h4 : cur < vs.length := by omega
  rw [List.getElem?_eq_getElem h4]
  simp [List.getD_eq_getElem?_getD, List.getElem?_eq_getElem h4]

lemma assignK_spec (tid : Nat) : ∀ (keys : List Value) (s : VMState)
    (cur tot : Nat) (vs : List Value) (rest : List StackValue) (t : Tbl),
    s.stack = .counter cur tot :: (vs.reverse.map .value) ++ rest →
    vs.length = tot → cur ≤ tot →
    s.tables[tid]? = some t →
    (∀ k ∈ keys, k ≠ Value.nil) → keys.Nodup →
    ∃ s1 t1, assignK tid keys s = .ok s1 ∧
      s1.stack = .counter (min (cur + keys.length) tot) tot ::
        (vs.reverse.map .value) ++ rest ∧
      s1.tables[tid]? = some t1 ∧
      s1.tables.length = s.tables.length ∧
      s1.nest_tables = s.nest_tables ∧ s1.call_stack = s.call_stack ∧
      (∀ k, k ∉ keys → tblFind t1 k = tblFind t k) ∧
      (∀ j, j < keys.length →
        tblFind t1 (keys.getD j .nil) =
          some (if cur + j < tot then vs.getD (cur + j) .nil else .nil))
  | [], s, cur, tot, vs, rest, t, hs, hlen, hcur, ht, hnil, hnd => by
      refine ⟨s, t, rfl, ?_, ht, rfl, rfl, rfl, fun k _ => rfl, ?_⟩
      · have hmin : (cur + ([] : List Value).length) ⊓ tot = cur := by
          simp
          omega
        rw [hs, hmin]
      · intro j hj
        simp at hj
  | k :: krest, s, cur, tot, vs, rest, t, hs, hlen, hcur, ht, hnil, hnd => by
      have hk : k ≠ Value.nil := hnil k (List.mem_cons_self k krest)
      have hknotin : k ∉ krest := (List.nodup_cons.mp hnd).1
      have hndrest : krest.Nodup := (List.nodup_cons.mp hnd).2
      have hnilrest : ∀ k2 ∈ krest, k2 ≠ Value.nil :=
        fun k2 hk2 => hnil k2 (List.mem_cons_of_mem k hk2)
      have htid_lt : tid < s.tables.length :=
        (List.getElem?_eq_some_iff.mp ht).1
      by_cases hlt : cur < tot
      · have hstep : assignRound tid k s =
            .ok {s with stack := .counter (cur + 1) tot ::
                          ((vs.reverse.map .value) ++ rest),
                        tables := s.tables.set tid
                          (tblAssignL t k (vs.getD cur .nil))} := by
          unfold assignRound
          exact vmAssign_step_lt
            {s with stack := .value k :: .counter 0 1 ::
              .value (.table tid) :: s.stack}
            k (.counter 0 1) tid cur tot
            ((vs.reverse.map .value) ++ rest) t (vs.getD cur .nil)
            (by simp [hs]) ht hk hlt
            (run_read vs rest cur tot hlen hlt)
        obtain ⟨s1, t1, e1, e2, e3, e4, e5, e6, e7, e8⟩ :=
          assignK_spec tid krest
            {s with stack := .counter (cur + 1) tot ::
                      ((vs.reverse.map .value) ++ rest),
                    tables := s.tables.set tid
                      (tblAssignL t k (vs.getD cur .nil))}
            (cur + 1) tot vs rest
            (tblAssignL t k (vs.getD cur .nil)) rfl hlen (by omega)
            (by dsimp only
                rw [List.getElem?_set_self]
                exact htid_lt)
            hnilrest hndrest
        refine ⟨s1, t1, ?_, ?_, e3, ?_, e5, e6, ?_, ?_⟩
        · unfold assignK
          rw [hstep]
          exact e1
        · rw [e2]
          have : cur + 1 + krest.length = cur + (krest.length + 1) := by omega
          rw [this]
          rfl
        · rw [e4]
          simp
        · intro k2 hk2
          have hk2r : k2 ∉ krest := fun hmem => hk2 (List.mem_cons_of_mem k hmem)
          have hk2k : k2 ≠ k := fun he => hk2 (he ▸ List.mem_cons_self k krest)
          rw [e7 k2 hk2r, tblFind_assign_ne t k (vs.getD cur .nil) k2 hk2k]
        · intro j hj
          cases j with
          | zero =>
              have hfind : tblFind t1 k = some (vs.getD cur .nil) := by
                rw [e7 k hknotin, tblFind_assign_self]
              simpa [hlt] using hfind
          | succ j2 =>
              have hj2 : j2 < krest.length := by
                simp at hj
                omega
              have := e8 j2 hj2
              have harith : cur + 1 + j2 = cur + (j2 + 1) := by omega
              rw [harith] at this
              exact this
      · have hcureq : cur = tot := by omega
        have hstep : assignRound tid k s =
            .ok {s with stack := .counter cur tot ::
                          ((vs.reverse.map .value) ++ rest),
                        tables := s.tables.set tid (tblAssignL t k .nil)} := by
          unfold assignRound
          exact vmAssign_step_ge
            {s with stack := .value k :: .counter 0 1 ::
              .value (.table tid) :: s.stack}
            k (.counter 0 1) tid cur tot
            ((vs.reverse.map .value) ++ rest) t
            (by simp [hs]) ht hk (by omega)
        obtain ⟨s1, t1, e1, e2, e3, e4, e5, e6, e7, e8⟩ :=
          assignK_spec tid krest
            {s with stack := .counter cur tot ::
                      ((vs.reverse.map .value) ++ rest),
                    tables := s.tables.set tid (tblAssignL t k Value.nil)}
            cur tot vs rest
            (tblAssignL t k Value.nil) rfl hlen hcur
            (by dsimp only
                rw [List.getElem?_set_self]
                exact htid_lt)
            hnilrest hndrest
        refine ⟨s1, t1, ?_, ?_, e3, ?_, e5, e6, ?_, ?_⟩
        · unfold assignK
          rw [hstep]
          exact e1
        · rw [e2]
          have : min (cur + krest.length) tot = min (cur + (krest.length + 1)) tot := by
            omega
          rw [this]
          rfl
        · rw [e4]
          simp
        · intro k2 hk2
          have hk2r : k2 ∉ krest := fun hmem => hk2 (List.mem_cons_of_mem k hmem)
          have hk2k : k2 ≠ k := fun he => hk2 (he ▸ List.mem_cons_self k krest)
          rw [e7 k2 hk2r, tblFind_assign_ne t k Value.nil k2 hk2k]
        · intro j hj
          cases j with
          | zero =>
              have hfind : tblFind t1 k = some Value.nil := by
                rw [e7 k hknotin, tblFind_assign_self]
              simpa [hlt] using hfind
          | succ j2 =>
              have hj2 : j2 < krest.length := by
                simp at hj
                omega
              have := e8 j2 hj2
              have hmore : ¬ (cur + (j2 + 1) < tot) := by omega
              have hthis : ¬ (cur + j2 < tot) := by omega
              simp only [if_neg hmore, if_neg hthis] at this ⊢
              exact this

/-- C4: on the expected stack shape, `Assign` consumes exactly one RHS
value — with `current < total` it writes the run value at position
`current` and increments `current`; with `current ≥ total` it writes nil
and leaves the counter unchanged — and in both cases the RHS counter slot
itself stays on the stack.  Iterating the compiler's per-key sequence
over K distinct keys against an RHS counter `{0, N}` (via `assignK`)
therefore writes the first `min(K, N)` run values to the first `min(K, N)`
keys and nil to the remaining `K − min(K, N)` keys, with the counter
remaining as `{min(K, N), N}` above the untouched run. -/
theorem assign_consumes_one_rhs_value :
    (∀ (s : VMState) (key : Value) (x : StackValue) (tid cur tot : Nat)
        (rest : List StackValue) (t : Tbl) (v : Value),
      s.stack = .value key :: x :: .value (.table tid) ::
        .counter cur tot :: rest →
      s.tables[tid]? = some t → key ≠ .nil → cur < tot →
      rest[tot - cur - 1]? = some (.value v) →
      vmAssign s = .ok {s with stack := .counter (cur + 1) tot :: rest,
                               tables := s.tables.set tid (tblAssignL t key v)}) ∧
    (∀ (s : VMState) (key : Value) (x : StackValue) (tid cur tot : Nat)
        (rest : List StackValue) (t : Tbl),
      s.stack = .value key :: x :: .value (.table tid) ::
        .counter cur tot :: rest →
      s.tables[tid]? = some t → key ≠ .nil → tot ≤ cur →
      vmAssign s = .ok {s with stack := .counter cur tot :: rest,
                               tables := s.tables.set tid
                                 (tblAssignL t key .nil)}) ∧
    (∀ (tid : Nat) (keys : List Value) (s : VMState) (tot : Nat)
        (vs : List Value) (rest : List StackValue) (t : Tbl),
      s.stack = .counter 0 tot :: (vs.reverse.map .value) ++ rest →
      vs.length = tot → s.tables[tid]? = some t →
      (∀ k ∈ keys, k ≠ Value.nil) → keys.Nodup →
      ∃ s1 t1, assignK tid keys s = .ok s1 ∧
        s1.stack = .counter (min keys.length tot) tot ::
          (vs.reverse.map .value) ++ rest ∧
        s1.tables[tid]? = some t1 ∧
        (∀ j, j < keys.length →
          tblFind t1 (keys.getD j .nil) =
            some (if j < tot then vs.getD j .nil else .nil))) := by
  refine ⟨vmAssign_step_lt, vmAssign_step_ge, ?_⟩
  intro tid keys s tot vs rest t hs hlen ht hnil hnd
  obtain ⟨s1, t1, e1, e2, e3, e4, e5, e6, e7, e8⟩ :=
    assignK_spec tid keys s 0 tot vs rest t hs hlen (by omega) ht hnil hnd
  refine ⟨s1, t1, e1, ?_, e3, ?_⟩
  · rw [e2]
    simp
  · intro j hj
    have := e8 j hj
    simpa using this

/-- Concrete pre-state for the C4 witness (scenario S2): RHS run 10, 20
with counter `{0, 2}`; the target table 0 is empty. -/
def exC4 : VMState :=
  ⟨[.counter 0 2, .value (.num 20), .value (.num 10)], [0], [], [], 0, 0,
    [[]], [], [], 0⟩

theorem assign_consumes_one_rhs_value_witness :
    ∃ s1 t1,
      assignK 0 [Value.str "a", Value.str "b", Value.str "c"] exC4 = .ok s1 ∧
      s1.stack = [.counter 2 2, .value (.num 20), .value (.num 10)] ∧
      s1.tables[0]? = some t1 ∧
      tblFind t1 (.str "a") = some (.num 10) ∧
      tblFind t1 (.str "b") = some (.num 20) ∧
      tblFind t1 (.str "c") = some Value.nil := by
  obtain ⟨s1, t1, e1, e2, e3, e4⟩ :=
    assign_consumes_one_rhs_value.2.2 0
      [Value.str "a", Value.str "b", Value.str "c"] exC4 2
      [Value.num 10, Value.num 20] [] [] rfl rfl rfl
      (by intro k hk; fin_cases hk <;> decide) (by decide)
  refine ⟨s1, t1, e1, by simpa using e2, e3, ?_, ?_, ?_⟩
  · simpa using e4 0 (by decide)
  · simpa using e4 1 (by decide)
  · simpa using e4 2 (by decide)

/-! ## C6 — call/return scope symmetry -/

lemma vmAssign_frames {s s1 : VMState} (h : vmAssign s = .ok s1) :
    s1.call_stack = s.call_stack ∧ s1.nest_tables = s.nest_tables := by
  unfold vmAssign at h
  repeat'
    first
      | (split at h)
      | (dsimp only at h)
  all_goals cases h
  all_goals exact ⟨rfl, rfl⟩

lemma vmCleanStack_frames {s s1 : VMState} (h : vmCleanStack s = .ok s1) :
    s1.call_stack = s.call_stack ∧ s1.nest_tables = s.nest_tables := by
  unfold vmCleanStack at h
  repeat'
    first
      | (split at h)
      | (dsimp only at h)
  all_goals cases h
  all_goals exact ⟨rfl, rfl⟩

lemma vmGetLocalTable_frames {s s1 : VMState} (h : vmGetLocalTable s = .ok s1) :
    s1.call_stack = s.call_stack ∧ s1.nest_tables = s.nest_tables := by
  unfold vmGetLocalTable at h
  repeat'
    first
      | (split at h)
      | (dsimp only at h)
  all_goals cases h
  all_goals exact ⟨rfl, rfl⟩

lemma vmGetTable_frames {s s1 : VMState} {ins : Instruction}
    (h : vmGetTable s ins = .ok s1) :
    s1.call_stack = s.call_stack ∧ s1.nest_tables = s.nest_tables := by
  unfold vmGetTable at h
  repeat'
    first
      | (split at h)
      | (dsimp only at h)
  all_goals cases h
  all_goals exact ⟨rfl, rfl⟩

lemma vmGetTableValue_frames {s s1 : VMState} {ins : Instruction}
    (h : vmGetTableValue s ins = .ok s1) :
    s1.call_stack = s.call_stack ∧ s1.nest_tables = s.nest_tables := by
  unfold vmGetTableValue at h
  repeat'
    first
      | (split at h)
      | (dsimp only at h)
  all_goals cases h
  all_goals exact ⟨rfl, rfl⟩

lemma vmDoPush_frames {s s1 : VMState} {ins : Instruction}
    (h : vmDoPush s ins = .ok s1) :
    s1.call_stack = s.call_stack ∧ s1.nest_tables = s.nest_tables := by
  unfold vmDoPush at h
  repeat'
    first
      | (split at h)
      | (dsimp only at h)
  all_goals cases h
  all_goals exact ⟨rfl, rfl⟩

lemma vmGenerateClosure_frames {s s1 : VMState} {ins : Instruction}
    (h : vmGenerateClosure s ins = .ok s1) :
    s1.call_stack = s.call_stack ∧ s1.nest_tables = s.nest_tables := by
  obtain ⟨fid, fn, uidOpt, _, _, _, hnest, hcall, _⟩ :=
    vmGenerateClosure_ok_shape h
  exact ⟨hcall, hnest⟩

lemma vmGenerateArgTable_frames {s s1 : VMState}
    (h : vmGenerateArgTable s = .ok s1) :
    s1.call_stack = s.call_stack ∧ s1.nest_tables = s.nest_tables := by
  unfold vmGenerateArgTable at h
  repeat'
    first
      | (split at h)
      | (dsimp only at h)
  all_goals cases h
  all_goals exact ⟨rfl, rfl⟩

lemma vmMergeCounter_frames {s s1 : VMState} (h : vmMergeCounter s = .ok s1) :
    s1.call_stack = s.call_stack ∧ s1.nest_tables = s.nest_tables := by
  unfold vmMergeCounter at h
  repeat'
    first
      | (split at h)
      | (dsimp only at h)
  all_goals cases h
  all_goals exact ⟨rfl, rfl⟩

lemma vmResetCounter_frames {s s1 : VMState} (h : vmResetCounter s = .ok s1) :
    s1.call_stack = s.call_stack ∧ s1.nest_tables = s.nest_tables := by
  unfold vmResetCounter at h
  repeat'
    first
      | (split at h)
      | (dsimp only at h)
  all_goals cases h
  all_goals exact ⟨rfl, rfl⟩

lemma vmDuplicateCounter_frames {s s1 : VMState}
    (h : vmDuplicateCounter s = .ok s1) :
    s1.call_stack = s.call_stack ∧ s1.nest_tables = s.nest_tables := by
  unfold vmDuplicateCounter at h
  repeat'
    first
      | (split at h)
      | (dsimp only at h)
  all_goals cases h
  all_goals exact ⟨rfl, rfl⟩

lemma vmAddLocalTable_ok {s s1 : VMState} {info : CallStackInfo}
    {cs : List CallStackInfo} (h : vmAddLocalTable s = .ok s1)
    (hcs : s.call_stack = info :: cs) :
    s1.call_stack = {info with callee_tables := info.callee_tables + 1} :: cs ∧
    s1.nest_tables.length = s.nest_tables.length + 1 := by
  unfold vmAddLocalTable at h
  rw [hcs] at h
  dsimp only at h
  cases h
  exact ⟨rfl, by simp⟩

lemma vmDelLocalTable_ok {s s1 : VMState} {info : CallStackInfo}
    {cs : List CallStackInfo} (h : vmDelLocalTable s = .ok s1)
    (hcs : s.call_stack = info :: cs) :
    s1.call_stack = {info with callee_tables := info.callee_tables - 1} :: cs ∧
    s1.nest_tables.length + 1 = s.nest_tables.length ∧
    0 < info.callee_tables := by
  unfold vmDelLocalTable at h
  rw [hcs] at h
  cases hnt : s.nest_tables with
  | nil => rw [hnt] at h; cases h
  | cons t0 nt =>
      rw [hnt] at h
      dsimp only at h
      split at h
      · cases h
        exact ⟨rfl, by simp, by assumption⟩
      · cases h

lemma vmCall_ok_frames {nfx : Nat → List StackValue → List StackValue}
    {s s1 : VMState} (h : vmCall nfx s = .ok s1) :
    ∃ v, s1.call_stack =
      (⟨s.ins_base, s.ins_count, s.ins_current, some v, 0⟩ : CallStackInfo) ::
        s.call_stack ∧
      s1.nest_tables = s.nest_tables := by
  unfold vmCall at h
  repeat'
    first
      | (split at h)
      | (dsimp only at h)
  all_goals cases h
  all_goals exact ⟨_, rfl, rfl⟩

lemma vmReturn_ok {s s1 : VMState} {info : CallStackInfo}
    {cs : List CallStackInfo} (h : vmReturn s = .ok s1)
    (hcs : s.call_stack = info :: cs) :
    s1.call_stack = cs ∧
    info.callee_tables ≤ s.nest_tables.length ∧
    s1.nest_tables.length + info.callee_tables = s.nest_tables.length := by
  unfold vmReturn at h
  rw [hcs] at h
  dsimp only at h
  split at h
  · cases h
    refine ⟨rfl, by assumption, ?_⟩
    simp [List.length_drop]
    omega
  · cases h

/-- An instruction whose handler never touches the call stack: everything
except `Call`, `Ret`, `AddGlobalTable` and `DelGlobalTable`. -/
def IntraFrame (i : Instruction) : Prop :=
  i.op_code ≠ .call ∧ i.op_code ≠ .ret ∧
  i.op_code ≠ .addGlobalTable ∧ i.op_code ≠ .delGlobalTable

/-- Well-nested dynamic instruction sequences within one activation: any
interleaving of intra-frame instructions and completed `Call`/`Ret`
pairs (whose bodies are again well-nested). -/
inductive FrameSeq : List Instruction → Prop where
  | nil : FrameSeq []
  | intra {i : Instruction} {l : List Instruction} :
      IntraFrame i → FrameSeq l → FrameSeq (i :: l)
  | callret {ci ri : Instruction} {inner rest : List Instruction} :
      ci.op_code = .call → ri.op_code = .ret →
      FrameSeq inner → FrameSeq rest →
      FrameSeq (ci :: (inner ++ ri :: rest))

/-- Number of instructions with the given opcode. -/
def countOp (op : OpCode) (l : List Instruction) : Nat :=
  (l.filter (fun i => i.op_code = op)).length

lemma countOp_cons (op : OpCode) (i : Instruction) (l : List Instruction) :
    countOp op (i :: l) =
      (if i.op_code = op then 1 else 0) + countOp op l := by
  unfold countOp
  rw [List.filter_cons]
  by_cases hd : i.op_code = op
  · simp [hd, Nat.add_comm]
  · simp [hd]

lemma intra_exec {nfx : Nat → List StackValue → List StackValue}
    {i : Instruction} {s s1 : VMState} {info : CallStackInfo}
    {cs : List CallStackInfo}
    (hi : IntraFrame i) (h : execIns nfx s i = .ok s1)
    (hcs : s.call_stack = info :: cs) :
    ∃ ct1, s1.call_stack = {info with callee_tables := ct1} :: cs ∧
      s1.nest_tables.length + info.callee_tables =
        s.nest_tables.length + ct1 ∧
      (i.op_code = .addLocalTable → ct1 = info.callee_tables + 1) ∧
      (i.op_code = .delLocalTable → ct1 + 1 = info.callee_tables) ∧
      (i.op_code ≠ .addLocalTable → i.op_code ≠ .delLocalTable →
        ct1 = info.callee_tables) := by
  obtain ⟨hnc, hnr, hng, hnd⟩ := hi
  unfold execIns at h
  cases hop : i.op_code with
  | call => exact absurd hop hnc
  | ret => exact absurd hop hnr
  | addGlobalTable => exact absurd hop hng
  | delGlobalTable => exact absurd hop hnd
  | assign =>
      rw [hop] at h
      dsimp only at h
      obtain ⟨h1, h2⟩ := vmAssign_frames h
      refine ⟨info.callee_tables, ?_, ?_, ?_, ?_, ?_⟩
      · rw [h1, hcs]
      · rw [h2]
      · intro hq
        cases hq
      · intro hq
        cases hq
      · intro _ _
        rfl
  | cleanStack =>
      rw [hop] at h
      dsimp only at h
      obtain ⟨h1, h2⟩ := vmCleanStack_frames h
      refine ⟨info.callee_tables, ?_, ?_, ?_, ?_, ?_⟩
      · rw [h1, hcs]
      · rw [h2]
      · intro hq
        cases hq
      · intro hq
        cases hq
      · intro _ _
        rfl
  | getLocalTable =>
      rw [hop] at h
      dsimp only at h
      obtain ⟨h1, h2⟩ := vmGetLocalTable_frames h
      refine ⟨info.callee_tables, ?_, ?_, ?_, ?_, ?_⟩
      · rw [h1, hcs]
      · rw [h2]
      · intro hq
        cases hq
      · intro hq
        cases hq
      · intro _ _
        rfl
  | getTable =>
      rw [hop] at h
      dsimp only at h
      obtain ⟨h1, h2⟩ := vmGetTable_frames h
      refine ⟨info.callee_tables, ?_, ?_, ?_, ?_, ?_⟩
      · rw [h1, hcs]
      · rw [h2]
      · intro hq
        cases hq
      · intro hq
        cases hq
      · intro _ _
        rfl
  | getTableValue =>
      rw [hop] at h
      dsimp only at h
      obtain ⟨h1, h2⟩ := vmGetTableValue_frames h
      refine ⟨info.callee_tables, ?_, ?_, ?_, ?_, ?_⟩
      · rw [h1, hcs]
      · rw [h2]
      · intro hq
        cases hq
      · intro hq
        cases hq
      · intro _ _
        rfl
  | push =>
      rw [hop] at h
      dsimp only at h
      obtain ⟨h1, h2⟩ := vmDoPush_frames h
      refine ⟨info.callee_tables, ?_, ?_, ?_, ?_, ?_⟩
      · rw [h1, hcs]
      · rw [h2]
      · intro hq
        cases hq
      · intro hq
        cases hq
      · intro _ _
        rfl
  | generateClosure =>
      rw [hop] at h
      dsimp only at h
      obtain ⟨h1, h2⟩ := vmGenerateClosure_frames h
      refine ⟨info.callee_tables, ?_, ?_, ?_, ?_, ?_⟩
      · rw [h1, hcs]
      · rw [h2]
      · intro hq
        cases hq
      · intro hq
        cases hq
      · intro _ _
        rfl
  | generateArgTable =>
      rw [hop] at h
      dsimp only at h
      obtain ⟨h1, h2⟩ := vmGenerateArgTable_frames h
      refine ⟨info.callee_tables, ?_, ?_, ?_, ?_, ?_⟩
      · rw [h1, hcs]
      · rw [h2]
      · intro hq
        cases hq
      · intro hq
        cases hq
      · intro _ _
        rfl
  | mergeCounter =>
      rw [hop] at h
      dsimp only at h
      obtain ⟨h1, h2⟩ := vmMergeCounter_frames h
      refine ⟨info.callee_tables, ?_, ?_, ?_, ?_, ?_⟩
      · rw [h1, hcs]
      · rw [h2]
      · intro hq
        cases hq
      · intro hq
        cases hq
      · intro _ _
        rfl
  | resetCounter =>
      rw [hop] at h
      dsimp only at h
      obtain ⟨h1, h2⟩ := vmResetCounter_frames h
      refine ⟨info.callee_tables, ?_, ?_, ?_, ?_, ?_⟩
      · rw [h1, hcs]
      · rw [h2]
      · intro hq
        cases hq
      · intro hq
        cases hq
      · intro _ _
        rfl
  | duplicateCounter =>
      rw [hop] at h
      dsimp only at h
      obtain ⟨h1, h2⟩ := vmDuplicateCounter_frames h
      refine ⟨info.callee_tables, ?_, ?_, ?_, ?_, ?_⟩
      · rw [h1, hcs]
      · rw [h2]
      · intro hq
        cases hq
      · intro hq
        cases hq
      · intro _ _
        rfl
  | other n =>
      rw [hop] at h
      dsimp only at h
      cases h
      refine ⟨info.callee_tables, ?_, rfl, ?_, ?_, ?_⟩
      · rw [hcs]
      · intro hq
        cases hq
      · intro hq
        cases hq
      · intro _ _
        rfl
  | addLocalTable =>
      rw [hop] at h
      dsimp only at h
      obtain ⟨h1, h2⟩ := vmAddLocalTable_ok h hcs
      refine ⟨info.callee_tables + 1, h1, by omega, ?_, ?_, ?_⟩
      · intro _
        rfl
      · intro hq
        cases hq
      · intro hq _
        exact absurd rfl hq
  | delLocalTable =>
      rw [hop] at h
      dsimp only at h
      obtain ⟨h1, h2, h3⟩ := vmDelLocalTable_ok h hcs
      refine ⟨info.callee_tables - 1, h1, by omega, ?_, ?_, ?_⟩
      · intro hq
        cases hq
      · intro _
        omega
      · intro _ hq
        exact absurd rfl hq

lemma execSeq_append_ok (nfx : Nat → List StackValue → List StackValue) :
    ∀ (a b : List Instruction) (s s2 : VMState),
    execSeq nfx (a ++ b) s = .ok s2 →
    ∃ s1, execSeq nfx a s = .ok s1 ∧ execSeq nfx b s1 = .ok s2
  | [], b, s, s2, h => ⟨s, rfl, h⟩
  | i :: a, b, s, s2, h => by
      rw [List.cons_append] at h
      simp only [execSeq] at h
      cases he : execIns nfx s i with
      | ok s3 =>
          rw [he] at h
          dsimp only at h
          obtain ⟨s4, ha, hb⟩ := execSeq_append_ok nfx a b s3 s2 h
          refine ⟨s4, ?_, hb⟩
          simp only [execSeq, he]
          exact ha
      | err m s3 =>
          rw [he] at h
          dsimp only at h
          cases h
      | crash =>
          rw [he] at h
          dsimp only at h
          cases h

lemma frameSeq_exec (nfx : Nat → List StackValue → List StackValue) :
    ∀ {l : List Instruction}, FrameSeq l →
    ∀ {s s1 : VMState}, execSeq nfx l s = .ok s1 →
    ∀ {info : CallStackInfo} {cs : List CallStackInfo},
    s.call_stack = info :: cs →
    ∃ ct1, s1.call_stack = {info with callee_tables := ct1} :: cs ∧
      s1.nest_tables.length + info.callee_tables =
        s.nest_tables.length + ct1 := by
  intro l hl
  induction hl with
  | nil =>
      intro s s1 h info cs hcs
      cases h
      exact ⟨info.callee_tables, by rw [hcs], rfl⟩
  | intra hi hfs ih =>
      rename_i i l2
      intro s s1 h info cs hcs
      simp only [execSeq] at h
      cases he : execIns nfx s i with
      | ok s2 =>
          rw [he] at h
          dsimp only at h
          obtain ⟨ct2, e1, e2, _, _, _⟩ := intra_exec hi he hcs
          obtain ⟨ct1, f1, f2⟩ := ih h e1
          have f2a : s1.nest_tables.length + ct2 =
              s2.nest_tables.length + ct1 := f2
          exact ⟨ct1, f1, by omega⟩
      | err m s2 =>
          rw [he] at h
          dsimp only at h
          cases h
      | crash =>
          rw [he] at h
          dsimp only at h
          cases h
  | callret hc hr hinner hrest ihInner ihRest =>
      rename_i ci ri inner rest
      intro s s1 h info cs hcs
      simp only [execSeq] at h
      cases he : execIns nfx s ci with
      | ok s2 =>
          rw [he] at h
          dsimp only at h
          have hec : vmCall nfx s = .ok s2 := by
            rw [← he]
            simp [execIns, hc]
          obtain ⟨v, g1, g2⟩ := vmCall_ok_frames hec
          obtain ⟨s3, ha, hb⟩ := execSeq_append_ok nfx inner (ri :: rest) s2 s1 h
          obtain ⟨ct3, e1, e2⟩ := ihInner ha g1
          simp only [execSeq] at hb
          cases her : execIns nfx s3 ri with
          | ok s4 =>
              rw [her] at hb
              dsimp only at hb
              have herr : vmReturn s3 = .ok s4 := by
                rw [← her]
                simp [execIns, hr]
              obtain ⟨r1, r2, r3⟩ := vmReturn_ok herr e1
              obtain ⟨ct1, f1, f2⟩ := ihRest hb (r1.trans hcs)
              have hg2 : s2.nest_tables.length = s.nest_tables.length := by
                rw [g2]
              have he2 : s3.nest_tables.length + 0 =
                  s2.nest_tables.length + ct3 := e2
              have hr3 : s4.nest_tables.length + ct3 =
                  s3.nest_tables.length := r3
              exact ⟨ct1, f1, by omega⟩
          | err m s4 =>
              rw [her] at hb
              dsimp only at hb
              cases hb
          | crash =>
              rw [her] at hb
              dsimp only at hb
              cases hb
      | err m s2 =>
          rw [he] at h
          dsimp only at h
          cases h
      | crash =>
          rw [he] at h
          dsimp only at h
          cases h

lemma flat_exec_count (nfx : Nat → List StackValue → List StackValue) :
    ∀ (l : List Instruction), (∀ i ∈ l, IntraFrame i) →
    ∀ (s s1 : VMState) (info : CallStackInfo) (cs : List CallStackInfo),
    s.call_stack = info :: cs → execSeq nfx l s = .ok s1 →
    ∃ ct1, s1.call_stack = {info with callee_tables := ct1} :: cs ∧
      ct1 + countOp .delLocalTable l =
        info.callee_tables + countOp .addLocalTable l
  | [], _, s, s1, info, cs, hcs, h => by
      cases h
      exact ⟨info.callee_tables, by rw [hcs], by simp [countOp]⟩
  | i :: l, hintra, s, s1, info, cs, hcs, h => by
      simp only [execSeq] at h
      cases he : execIns nfx s i with
      | ok s2 =>
          rw [he] at h
          dsimp only at h
          obtain ⟨ct2, e1, e2, eadd, edel, enone⟩ :=
            intra_exec (hintra i (List.mem_cons_self i l)) he hcs
          obtain ⟨ct1, f1, f2⟩ := flat_exec_count nfx l
            (fun j hj => hintra j (List.mem_cons_of_mem i hj)) s2 s1 _ cs e1 h
          refine ⟨ct1, f1, ?_⟩
          rw [countOp_cons, countOp_cons]
          have f2a : ct1 + countOp .delLocalTable l =
              ct2 + countOp .addLocalTable l := f2
          by_cases hadd : i.op_code = .addLocalTable
          · have hct : ct2 = info.callee_tables + 1 := eadd hadd
            have hdel : ¬ i.op_code = .delLocalTable := by
              rw [hadd]
              intro hq
              cases hq
            rw [if_pos hadd, if_neg hdel]
            omega
          · by_cases hdel : i.op_code = .delLocalTable
            · have hct : ct2 + 1 = info.callee_tables := edel hdel
              rw [if_neg hadd, if_pos hdel]
              omega
            · have hct : ct2 = info.callee_tables := enone hadd hdel
              rw [if_neg hadd, if_neg hdel]
              omega
      | err m s2 =>
          rw [he] at h
          dsimp only at h
          cases h
      | crash =>
          rw [he] at h
          dsimp only at h
          cases h

/-- C6: for a completed `Call`/`Ret` pair — a successful `Call`, a
well-nested body executing to completion, and the matching `Ret` — the
scope-table stack depth after the `Ret` equals its depth before the
`Call`, and the call stack returns exactly to its pre-`Call` value.  The
`Ret` removes exactly `callee_tables` scope tables — the record's count
at return time — and when the body is purely intra-frame that count
equals the number of `AddLocalTable`s minus the number of
`DelLocalTable`s the activation executed. -/
theorem call_ret_depth_symmetry (nfx : Nat → List StackValue → List StackValue)
    (s0 s1 s2 s3 : VMState) (body : List Instruction)
    (hc : vmCall nfx s0 = .ok s1) (hb : FrameSeq body)
    (he : execSeq nfx body s1 = .ok s2) (hr : vmReturn s2 = .ok s3) :
    s3.nest_tables.length = s0.nest_tables.length ∧
    s3.call_stack = s0.call_stack ∧
    (∃ info2 cs2, s2.call_stack = info2 :: cs2 ∧
      s2.nest_tables.length = s3.nest_tables.length + info2.callee_tables ∧
      ((∀ i ∈ body, IntraFrame i) →
        info2.callee_tables + countOp .delLocalTable body =
          countOp .addLocalTable body)) := by
  obtain ⟨v, g1, g2⟩ := vmCall_ok_frames hc
  obtain ⟨ct2, e1, e2⟩ := frameSeq_exec nfx hb he g1
  obtain ⟨r1, r2, r3⟩ := vmReturn_ok hr e1
  have hg2 : s1.nest_tables.length = s0.nest_tables.length := by rw [g2]
  have he2 : s2.nest_tables.length + 0 = s1.nest_tables.length + ct2 := e2
  have hr3 : s3.nest_tables.length + ct2 = s2.nest_tables.length := r3
  refine ⟨by omega, r1, ?_⟩
  refine ⟨_, _, e1, ?_, ?_⟩
  · show s2.nest_tables.length = s3.nest_tables.length + ct2
    omega
  · intro hflat
    obtain ⟨ct2b, f1, f2⟩ := flat_exec_count nfx body hflat s1 s2 _ _ g1 he
    have hcteq : ct2 = ct2b := by
      rw [e1] at f1
      have := (List.cons.injEq _ _ _ _).mp f1
      have h2 := congrArg CallStackInfo.callee_tables this.1
      exact h2
    show ct2 + countOp .delLocalTable body = countOp .addLocalTable body
    have f2a : ct2b + countOp .delLocalTable body =
        0 + countOp .addLocalTable body := f2
    omega

/-- Concrete pre-state for the C6 witness: the global frame with the
stack shaped for `Call` of closure 0 (a function with an empty body),
followed by one `AddLocalTable` in the callee and the `Ret`. -/
def exC6 : VMState :=
  ⟨[.counter 0 0, .counter 0 1, .value (.closure 0)], [0],
    [⟨[], 0, 0, none, 1⟩], [⟨.call, .noParam⟩], 1, 0,
    [[]], [⟨0, none⟩], [⟨[], []⟩], 0⟩

/-- State after the `Call` in the C6 witness. -/
def exC6s1 : VMState :=
  ⟨[.counter 0 0, .counter 0 1, .value (.closure 0)], [0],
    [⟨[⟨.call, .noParam⟩], 1, 0, some (.closure 0), 0⟩, ⟨[], 0, 0, none, 1⟩],
    [], 0, -1, [[]], [⟨0, none⟩], [⟨[], []⟩], 0⟩

/-- State after the callee's `AddLocalTable` in the C6 witness. -/
def exC6s2 : VMState :=
  ⟨[.counter 0 0, .counter 0 1, .value (.closure 0)], [1, 0],
    [⟨[⟨.call, .noParam⟩], 1, 0, some (.closure 0), 1⟩, ⟨[], 0, 0, none, 1⟩],
    [], 0, -1, [[], []], [⟨0, none⟩], [⟨[], []⟩], 0⟩

/-- State after the `Ret` in the C6 witness. -/
def exC6s3 : VMState :=
  ⟨[.counter 0 0, .counter 0 1, .value (.closure 0)], [0],
    [⟨[], 0, 0, none, 1⟩], [⟨.call, .noParam⟩], 1, 0,
    [[], []], [⟨0, none⟩], [⟨[], []⟩], 0⟩

theorem call_ret_depth_symmetry_witness :
    vmCall (fun _ st => st) exC6 = .ok exC6s1 ∧
    execSeq (fun _ st => st) [⟨.addLocalTable, .noParam⟩] exC6s1 = .ok exC6s2 ∧
    vmReturn exC6s2 = .ok exC6s3 ∧
    exC6s3.nest_tables.length = exC6.nest_tables.length ∧
    exC6s3.call_stack = exC6.call_stack := by
  have hc : vmCall (fun _ st => st) exC6 = .ok exC6s1 := by decide
  have he : execSeq (fun _ st => st) [⟨.addLocalTable, .noParam⟩] exC6s1 =
      .ok exC6s2 := by decide
  have hr : vmReturn exC6s2 = .ok exC6s3 := by decide
  have hb : FrameSeq [⟨.addLocalTable, .noParam⟩] :=
    FrameSeq.intra ⟨by decide, by decide, by decide, by decide⟩ FrameSeq.nil
  obtain ⟨m1, m2, _⟩ := call_ret_depth_symmetry (fun _ st => st)
    exC6 exC6s1 exC6s2 exC6s3 [⟨.addLocalTable, .noParam⟩] hc hb he hr
  exact ⟨hc, he, hr, m1, m2⟩

end Luna
